import Mathlib

/-!
# voxtral.c command line front end: ingestion and rendering pipeline

A shallow embedding of `main.c` and `voxtral_mic.c`.

Conventions of the embedding.

* The C statics of `main.c` (`first_token`, `alt_cutoff`, `feed_chunk`,
  `g_stop_mic`) and standard output are fields of one explicit state record
  that every function takes and returns.
* The recognition engine is external.  What the program does to it is kept as
  a log of calls (`State.calls`, oldest first); what it answers is an oracle held
  in the state: `gets` lists the results of the coming `vox_stream_get` calls,
  `gets_alt` those of the coming `vox_stream_get_alt` calls.
* C strings are lists of characters.  A `const char *` that may be `NULL` is an
  `Option`.
* A `float` that comes from the command line is a value of `F32`: NaN, an
  infinity or a finite number, with the comparisons of C (every comparison
  with NaN is false).  The two products `seconds * 16000` are evaluated in
  single precision (`f32_round`: the exact product rounded to nearest, ties
  to even) and `(int)` truncates toward zero; where the truncated value is
  not an `int` C leaves the result undefined and the embedding takes it from
  the environment.
* An audio sample is the exact rational value of its `float`: the conversion
  the program performs on samples (a 16 bit integer divided by the power of
  two 32768) is exact in binary floating point.
* `int` and `size_t` counters are unbounded integers: offsets and sizes stay
  below the word size for any input that fits in memory, and the capture
  counter `total_samples` needs more than 37 hours of audio to reach it.
* Memory allocation in `main` succeeds; in the capture callback its failure
  is an input of the delivery.
* Loops that need not terminate carry an iteration bound and return `none`
  when it is reached.
-/

namespace Voxtral

/-- A C string: the characters in front of the terminating NUL. -/
abbrev CStr := List Char

/-- An audio sample, the exact value of the C `float`. -/
abbrev Sample := ℚ

/-- The macro `DEFAULT_FEED_CHUNK` of main.c: one second at 16 kHz. -/
def DEFAULT_FEED_CHUNK : Int := 16000

/-! ## Single precision values -/

/-- A value of the C type `float`: NaN, an infinity, or a finite number (for a value held
in a `float` variable, one of the numbers single precision represents; the sign of a zero is
not kept, no operation of the program tells the two zeros apart). -/
inductive F32 where
  | nan
  | inf (negative : Bool)
  | num (q : ℚ)
  deriving DecidableEq, Repr

instance : Zero F32 := ⟨F32.num 0⟩

instance : One F32 := ⟨F32.num 1⟩

/-- The C comparison `a < b` on floats: false as soon as one side is NaN. -/
def F32.lt : F32 → F32 → Bool
  | .num a, .num b => decide (a < b)
  | .num _, .inf false => true
  | .inf true, .num _ => true
  | .inf true, .inf false => true
  | _, _ => false

/-- The C comparison `a <= b` on floats: false as soon as one side is NaN. -/
def F32.le : F32 → F32 → Bool
  | .num a, .num b => decide (a ≤ b)
  | .num _, .inf false => true
  | .inf true, .num _ => true
  | .inf true, .inf _ => true
  | .inf false, .inf false => true
  | _, _ => false

instance : LT F32 := ⟨fun a b => F32.lt a b = true⟩

instance : LE F32 := ⟨fun a b => F32.le a b = true⟩

instance (a b : F32) : Decidable (a < b) := inferInstanceAs (Decidable (F32.lt a b = true))

instance (a b : F32) : Decidable (a ≤ b) := inferInstanceAs (Decidable (F32.le a b = true))

/-- Rounding of a real number to single precision (IEEE 754 binary32, round to nearest,
ties to even): 24 significant bits, exponents from -126 on, overflow to an infinity. -/
def f32_round (x : ℚ) : F32 :=
  if x = 0 then F32.num 0
  else
    let a : ℚ := |x|
    let e : Int := max (Int.log 2 a) (-126)
    let ulp : ℚ := (2 : ℚ) ^ (e - 23)
    let n : ℚ := a / ulp
    let k : Int := ⌊n⌋
    let r : Int :=
      if n - k < 1 / 2 then k
      else if 1 / 2 < n - k then k + 1
      else if k % 2 = 0 then k else k + 1
    let y : ℚ := r * ulp
    if (2 : ℚ) ^ (128 : Nat) ≤ y then F32.inf (decide (x < 0))
    else F32.num (if x < 0 then -y else y)

/-- The float product `a * c` of a float and a positive finite constant `c` that is itself
a float (the integer macro 16000 converts exactly). -/
def F32.scale (a : F32) (c : ℚ) : F32 :=
  match a with
  | .nan => .nan
  | .inf s => .inf s
  | .num q => f32_round (q * c)

/-- The conversion `(int)x` of a float: truncation toward zero when the truncated value is
an `int` (32 bits); otherwise C leaves the behaviour undefined and `ub` stands for what the
platform then yields. -/
def f2i (ub : F32 → Int) (x : F32) : Int :=
  match x with
  | .num q =>
    let t : Int := if 0 ≤ q then ⌊q⌋ else ⌈q⌉
    if -2147483648 ≤ t ∧ t ≤ 2147483647 then t else ub x
  | _ => ub x

/-- Calls the program makes into the engine and the platform, as logged in `State.calls`. -/
inductive Call where
  | vox_load (model_dir : String)
  | vox_stream_init
  | vox_stream_set_alt (n_alt : Nat) (cutoff : F32)
  | vox_set_processing_interval (interval : F32)
  | vox_load_wav (path : String)
  | vox_parse_wav_buffer (buf : List (Fin 256))
  | vox_stream_feed (chunk : List Sample)
  | vox_stream_finish
  | vox_stream_free
  | vox_free
  | vox_capture_mic_macos (max_seconds : F32) (chunk_samples : Int)
  | AudioQueueAllocateBuffer (bytes : Int)
  | AudioQueueEnqueueBuffer
  deriving DecidableEq, Repr

/-- The process state: the statics of main.c, standard output, the call log and the
engine oracle. -/
structure State where
  /-- The static `first_token` (1 at program start). -/
  first_token : Bool
  /-- The static `alt_cutoff` (negative means alternatives are disabled). -/
  alt_cutoff : F32
  /-- The static `feed_chunk`. -/
  feed_chunk : Int
  /-- The static `g_stop_mic`, the cooperative stop flag. -/
  g_stop_mic : Bool
  /-- Everything written to stdout so far. -/
  out : List Char
  /-- Calls made so far, oldest first. -/
  calls : List Call
  /-- Results of the coming `vox_stream_get` calls; an empty result is a return of 0. -/
  gets : List (List CStr)
  /-- Results of the coming `vox_stream_get_alt` calls: per call the positions returned,
  per position its `n_alt` slots (`tokens[i * n_alt + a]` is slot `a` of position `i`). -/
  gets_alt : List (List (List (Option CStr)))

/-- The statics as initialised in main.c, with a given engine oracle. -/
def State.init (gets : List (List CStr)) (gets_alt : List (List (List (Option CStr)))) : State :=
  { first_token := true, alt_cutoff := F32.num (-1), feed_chunk := DEFAULT_FEED_CHUNK,
    g_stop_mic := false, out := [], calls := [], gets := gets, gets_alt := gets_alt }

/-- The loop `while (*t == ' ') t++;`. -/
def skip_spaces (t : CStr) : CStr :=
  t.dropWhile (fun c => c == ' ')

/-- The call `fputs(t, stdout)`. -/
def fputs (st : State) (t : CStr) : State :=
  { st with out := st.out ++ t }

/-- The call `fputc(c, stdout)`. -/
def fputc (st : State) (c : Char) : State :=
  { st with out := st.out ++ [c] }

/-- Body of the inner `for` loop of the plain path of `drain_tokens` (main.c 49-54). -/
def drain_plain_token (st : State) (t : CStr) : State :=
  if st.first_token then
    fputs { st with first_token := false } (skip_spaces t)
  else
    fputs st t

/-- The plain path of `drain_tokens` (main.c 47-57), run against the coming results of
`vox_stream_get`: each non-empty batch is rendered, the first empty result (or the end of
the oracle) ends the loop.  The state returned holds the results not yet consumed. -/
def drain_plain : List (List CStr) → State → State
  | [], st => { st with gets := [] }
  | b :: rest, st =>
    if b.length > 0 then
      drain_plain rest (b.foldl drain_plain_token { st with gets := rest })
    else
      { st with gets := rest }

/-- The loop `for (a = 1; a < n_alt; a++) if (tokens[i*n_alt+a]) ...` (main.c 68-71). -/
def has_alt (n_alt : Nat) (slots : List (Option CStr)) : Bool :=
  (List.range' 1 (n_alt - 1)).any (fun a => (slots.getD a none).isSome)

/-- The listing loop `for (a = 0; a < n_alt; a++)` of main.c 74-84, from rank `a` on, with
`k` iterations left. -/
def alt_listing (slots : List (Option CStr)) : Nat → Nat → State → State
  | 0, _, st => st
  | k + 1, a, st =>
    match slots.getD a none with
    | none => st
    | some alt =>
      let st1 := if a > 0 then fputc st '|' else st
      if a = 0 ∧ st1.first_token = true then
        alt_listing slots k (a + 1) (fputs { st1 with first_token := false } (skip_spaces alt))
      else
        alt_listing slots k (a + 1) (fputs st1 alt)

/-- Body of the outer `for` loop of the alternatives path (main.c 65-93) for one position. -/
def drain_alt_position (n_alt : Nat) (st : State) (slots : List (Option CStr)) : State :=
  match slots.getD 0 none with
  | none => st
  | some best =>
    if has_alt n_alt slots then
      fputc (alt_listing slots n_alt 0 (fputc st '[')) ']'
    else if st.first_token then
      fputs { st with first_token := false } (skip_spaces best)
    else
      fputs st best

/-- The alternatives path of `drain_tokens` (main.c 60-96) with `n_alt = 3`, run against
the coming results of `vox_stream_get_alt`. -/
def drain_alt : List (List (List (Option CStr))) → State → State
  | [], st => { st with gets_alt := [] }
  | b :: rest, st =>
    if b.length > 0 then
      drain_alt rest (b.foldl (drain_alt_position 3) { st with gets_alt := rest })
    else
      { st with gets_alt := rest }

/-- The function `drain_tokens` of main.c. -/
def drain_tokens (st : State) : State :=
  if st.alt_cutoff < 0 then drain_plain st.gets st else drain_alt st.gets_alt st

/-- The call `vox_stream_feed(s, samples + off, chunk)`: the engine is handed the `chunk`
samples that start at offset `off`. -/
def vox_stream_feed (st : State) (samples : List Sample) (off chunk : Int) : State :=
  { st with calls := st.calls ++ [Call.vox_stream_feed ((samples.drop off.toNat).take chunk.toNat)] }

/-- The `while (off < n_samples)` loop of `feed_and_drain` (main.c 105-111) with a bound on
the number of iterations; `none` means the bound was reached with the loop still
running. -/
def feed_loop (samples : List Sample) (n_samples : Int) : Nat → Int → State → Option State
  | 0, _, _ => none
  | fuel + 1, off, st =>
    if off < n_samples then
      let chunk0 := n_samples - off
      let chunk := if chunk0 > st.feed_chunk then st.feed_chunk else chunk0
      let st1 := vox_stream_feed st samples off chunk
      feed_loop samples n_samples fuel (off + chunk) (drain_tokens st1)
    else
      some st

/-- The function `feed_and_drain` of main.c, with an iteration bound for its loop. -/
def feed_and_drain (fuel : Nat) (st : State) (samples : List Sample) (n_samples : Int) :
    Option State :=
  feed_loop samples n_samples fuel 0 st

/-- The chunks of the `vox_stream_feed` calls in a call log, oldest first. -/
def fed_chunks : List Call → List (List Sample)
  | [] => []
  | Call.vox_stream_feed c :: rest => c :: fed_chunks rest
  | _ :: rest => fed_chunks rest

/-! ## Command line, sources and `main` -/

/-- Modelled from the spec: the macro `VOX_SAMPLE_RATE` of voxtral.h, which is not among the
sources; the spec fixes the sample rate at 16 kHz. -/
def VOX_SAMPLE_RATE : ℚ := 16000

/-- The macro `VOX_MIC_SAMPLE_RATE` of voxtral_mic.c. -/
def VOX_MIC_SAMPLE_RATE : ℚ := 16000

/-- A byte of an input stream. -/
abbrev Byte := Fin 256

/-- The 16 bit signed integer stored little-endian in two bytes. -/
def s16le (lo hi : Byte) : Int :=
  let u : Int := (lo.val : Int) + 256 * (hi.val : Int)
  if u ≥ 32768 then u - 65536 else u

/-- The conversion `x / 32768.0f` of a 16 bit sample. -/
def to_float (x : Int) : Sample :=
  (x : ℚ) / 32768

/-- The complete 16 bit items of a byte sequence, in order (what `memcpy` into an
`int16_t` array, or `fread` with item size 2, stores). -/
def s16_items : List Byte → List Int
  | lo :: hi :: rest => s16le lo hi :: s16_items rest
  | _ => []

/-- What lies outside the program: the C library, the platform, the engine's lifecycle
results, the audio decoders of voxtral_audio and the input stream. -/
structure Env where
  /-- The expression `(float)atof(s)`. -/
  atof : String → F32
  /-- What `(int)x` yields on this platform where C leaves the conversion undefined. -/
  float_to_int_ub : F32 → Int
  /-- Whether `__APPLE__` is defined. -/
  apple : Bool
  /-- Whether `vox_load` returns a context. -/
  load_ok : Bool
  /-- Whether `vox_stream_init` returns a stream. -/
  stream_ok : Bool
  /-- The bytes available on stdin. -/
  stdin : List Byte
  /-- The decoder `vox_load_wav`: the samples of the file, or `none` for `NULL`. -/
  vox_load_wav : String → Option (List Sample)
  /-- The decoder `vox_parse_wav_buffer`. -/
  vox_parse_wav_buffer : List Byte → Option (List Sample)

/-- The locals of `main` that argument parsing sets. -/
structure Args where
  model_dir : Option String
  input_wav : Option String
  verbosity : Int
  use_stdin : Int
  use_mic : Int
  interval : F32
  mic_seconds : F32

/-- The initial values of the locals of `main` (main.c 134-140). -/
def Args.init : Args :=
  { model_dir := none, input_wav := none, verbosity := 1, use_stdin := 0, use_mic := 0,
    interval := F32.num (-1), mic_seconds := F32.num (-1) }

/-- Result of one iteration of the argument loop. -/
inductive ArgStep where
  /-- The iteration executed `return code`. -/
  | ret (code : Int) (st : State)
  /-- The iteration consumed `argv[i]` and, when `took_value`, also `argv[i+1]`. -/
  | next (took_value : Bool) (a : Args) (st : State)

/-- One iteration of the argument loop (main.c 143-180) on `argv[i] = arg`; `value` is
`argv[i+1]` when `i + 1 < argc`. -/
def parse_arg (env : Env) (arg : String) (value : Option String) (a : Args) (st : State) :
    ArgStep :=
  if arg = "-d" ∧ value.isSome then .next true { a with model_dir := value } st
  else if arg = "-i" ∧ value.isSome then .next true { a with input_wav := value } st
  else if arg = "-I" ∧ value.isSome then
    let interval := env.atof (value.getD "")
    if interval ≤ 0 then .ret 1 st
    else .next true { a with interval := interval } st
  else if arg = "--alt" ∧ value.isSome then
    let st1 := { st with alt_cutoff := env.atof (value.getD "") }
    if st1.alt_cutoff < 0 ∨ st1.alt_cutoff > 1 then .ret 1 st1
    else .next true a st1
  else if arg = "--stdin" then .next false { a with use_stdin := 1 } st
  else if arg = "--mic" then .next false { a with use_mic := 1 } st
  else if arg = "--mic-secs" ∧ value.isSome then
    let mic_seconds := env.atof (value.getD "")
    if mic_seconds ≤ 0 then .ret 1 st
    else .next true { a with mic_seconds := mic_seconds } st
  else if arg = "--debug" then .next false { a with verbosity := 2 } st
  else if arg = "--silent" then .next false { a with verbosity := 0 } st
  else if arg = "-h" ∨ arg = "--help" then .ret 0 st
  else .ret 1 st

/-- The argument loop `for (i = 1; i < argc; i++)` over `argv[i], argv[i+1], ...`:
either the return code of an early `return`, or the locals after the loop. -/
def parse_args (env : Env) : List String → Args → State → (Int × State) ⊕ (Args × State)
  | [], a, st => .inr (a, st)
  | arg :: rest, a, st =>
    match parse_arg env arg rest.head? a st, rest with
    | .ret code st1, _ => .inl (code, st1)
    | .next true a1 st1, _ :: rest2 => parse_args env rest2 a1 st1
    | .next _ a1 st1, rest1 => parse_args env rest1 a1 st1

/-- The checks after the argument loop (main.c 183-194): `true` when one of them returns 1. -/
def invalid_combination (a : Args) : Bool :=
  (a.model_dir.isNone || (a.input_wav.isNone && a.use_stdin == 0 && a.use_mic == 0))
  || decide ((if a.input_wav.isSome then 1 else 0) + a.use_stdin + a.use_mic > 1)
  || (decide (a.mic_seconds > 0) && a.use_mic == 0)

/-- The derivation of `feed_chunk` from a positive interval (main.c 220-222). -/
def derive_feed_chunk (ub : F32 → Int) (interval : F32) : Int :=
  let fc := f2i ub (interval.scale VOX_SAMPLE_RATE)
  let fc := if fc < 160 then 160 else fc
  if fc > DEFAULT_FEED_CHUNK then DEFAULT_FEED_CHUNK else fc

/-! ## Microphone capture (voxtral_mic.c) -/

/-- The fields of `vox_mic_state_t` that carry data; the callback is passed separately. -/
structure vox_mic_state_t where
  max_samples : Int
  total_samples : Int
  should_stop : Bool
  failed : Bool

/-- A chunk callback `vox_mic_chunk_cb` with its `user` pointer bound: from the samples,
their count and the process state to the return value and the new state (`none` when the
callback does not return). -/
abbrev vox_mic_chunk_cb := List Sample → Int → State → Option (Int × State)

/-- One hardware buffer delivery as the platform presents it. -/
structure Delivery where
  /-- The 16 bit samples in the buffer; `mAudioDataByteSize` is twice their number. -/
  data : List Int
  /-- Whether `malloc` succeeds in this delivery. -/
  malloc_ok : Bool
  /-- Whether `AudioQueueEnqueueBuffer` returns `noErr` in this delivery. -/
  enqueue_ok : Bool

/-- The test `st->callback && st->callback(tmp, n_samples, st->user) != 0` of
voxtral_mic.c 49: whether it holds, and the state after the call (if any). -/
def callback_requests_stop (callback : Option vox_mic_chunk_cb) (tmp : List Sample)
    (n_samples : Int) (st : State) : Option (Bool × State) :=
  match callback with
  | none => some (false, st)
  | some cb =>
    match cb tmp n_samples st with
    | none => none
    | some (rc, st1) => some (decide (rc ≠ 0), st1)

/-- The body of `if (n_samples > 0)` in `vox_mic_input_cb` (voxtral_mic.c 41-55). -/
def mic_convert_and_feed (callback : Option vox_mic_chunk_cb) (m : vox_mic_state_t) (st : State)
    (d : Delivery) (n_samples : Int) : Option (vox_mic_state_t × State) :=
  if ¬ d.malloc_ok then some ({ m with failed := true, should_stop := true }, st)
  else
    let tmp := d.data.map to_float
    match callback_requests_stop callback tmp n_samples st with
    | none => none
    | some (stop, st1) =>
      let m1 := if stop then { m with should_stop := true } else m
      let m2 := { m1 with total_samples := m1.total_samples + n_samples }
      if m2.max_samples > 0 ∧ m2.total_samples ≥ m2.max_samples then
        some ({ m2 with should_stop := true }, st1)
      else some (m2, st1)

/-- The resubmission block of `vox_mic_input_cb` (voxtral_mic.c 58-63). -/
def mic_resubmit (m : vox_mic_state_t) (st : State) (d : Delivery) : vox_mic_state_t × State :=
  if ¬ m.should_stop ∧ ¬ m.failed then
    let st1 := { st with calls := st.calls ++ [Call.AudioQueueEnqueueBuffer] }
    if ¬ d.enqueue_ok then ({ m with failed := true, should_stop := true }, st1)
    else (m, st1)
  else (m, st)

/-- The function `vox_mic_input_cb` of voxtral_mic.c for a non-NULL `inUserData`. -/
def vox_mic_input_cb (callback : Option vox_mic_chunk_cb) (m : vox_mic_state_t) (st : State)
    (d : Delivery) : Option (vox_mic_state_t × State) :=
  if m.should_stop ∨ m.failed then some (m, st)
  else
    let n_samples : Int := ((2 * d.data.length / 2 : Nat) : Int)
    let r := if n_samples > 0 then mic_convert_and_feed callback m st d n_samples else some (m, st)
    match r with
    | none => none
    | some (m1, st1) => some (mic_resubmit m1 st1 d)

/-- The function `handle_sigint` of main.c. -/
def handle_sigint (st : State) : State :=
  { st with g_stop_mic := true }

/-- The function `mic_chunk_cb` of main.c; `stream_ok` says that `cb` and `cb->stream` are
non-NULL.  The flag `g_stop_mic` is read as it stands in the state: an interrupt is taken
between deliveries, not inside one. -/
def mic_chunk_cb (stream_ok : Bool) : vox_mic_chunk_cb := fun samples n_samples st =>
  if ¬ stream_ok then some (1, st)
  else if st.g_stop_mic then some (1, st)
  else
    match feed_and_drain (n_samples.toNat + 1) st samples n_samples with
    | none => none
    | some st1 => some (if st1.g_stop_mic then 1 else 0, st1)

/-- What happens while the control loop waits in `CFRunLoopRunInMode`. -/
inductive MicEvent where
  | delivery (d : Delivery)
  | sigint

/-- The platform side of a capture session. -/
structure MicPlatform where
  /-- Whether `AudioQueueNewInput` returns `noErr`. -/
  new_input_ok : Bool
  /-- Whether `AudioQueueAllocateBuffer` succeeds for buffer `i`. -/
  allocate_ok : Nat → Bool
  /-- Whether the initial `AudioQueueEnqueueBuffer` succeeds for buffer `i`. -/
  enqueue_ok : Nat → Bool
  /-- Whether `AudioQueueStart` returns `noErr`. -/
  start_ok : Bool
  /-- The events of the successive `CFRunLoopRunInMode` calls of the control loop. -/
  polls : List (List MicEvent)

/-- The events of one `CFRunLoopRunInMode` call, in order. -/
def mic_events (callback : Option vox_mic_chunk_cb) :
    List MicEvent → vox_mic_state_t → State → Option (vox_mic_state_t × State)
  | [], m, st => some (m, st)
  | MicEvent.sigint :: rest, m, st => mic_events callback rest m (handle_sigint st)
  | MicEvent.delivery d :: rest, m, st =>
    match vox_mic_input_cb callback m st d with
    | none => none
    | some (m1, st1) => mic_events callback rest m1 st1

/-- The control loop `while (!st.should_stop && !st.failed)` of `vox_capture_mic_macos`
(voxtral_mic.c 136-142); `none` when the listed polls end with the loop still running. -/
def mic_control_loop (callback : Option vox_mic_chunk_cb) :
    List (List MicEvent) → vox_mic_state_t → State → Option (vox_mic_state_t × State)
  | polls, m, st =>
    if ¬ m.should_stop ∧ ¬ m.failed then
      if st.g_stop_mic then some ({ m with should_stop := true }, st)
      else
        match polls with
        | [] => none
        | evs :: rest =>
          match mic_events callback evs m st with
          | none => none
          | some (m1, st1) => mic_control_loop callback rest m1 st1
    else some (m, st)

/-- The buffer loop `for (i = 0; i < nbuf; i++)` of voxtral_mic.c 113-127 from buffer `i`
on, with `k` iterations left: `false` when an iteration returns -1. -/
def allocate_buffers (p : MicPlatform) (bytes : Int) : Nat → Nat → State → Bool × State
  | 0, _, st => (true, st)
  | k + 1, i, st =>
    let st1 := { st with calls := st.calls ++ [Call.AudioQueueAllocateBuffer bytes] }
    if ¬ p.allocate_ok i then (false, st1)
    else
      let st2 := { st1 with calls := st1.calls ++ [Call.AudioQueueEnqueueBuffer] }
      if ¬ p.enqueue_ok i then (false, st2)
      else allocate_buffers p bytes k (i + 1) st2

/-- The derivation of `st.max_samples` (voxtral_mic.c 74-78). -/
def derive_max_samples (ub : F32 → Int) (max_seconds : F32) : Int :=
  if max_seconds > 0 then f2i ub (max_seconds.scale VOX_MIC_SAMPLE_RATE) else 0

/-- The macOS variant of `vox_capture_mic_macos`: return value, `*out_total_samples` and
the new process state (`*out_total_samples` keeps the caller's 0 on an early return). -/
def vox_capture_mic_macos (ub : F32 → Int) (p : MicPlatform) (max_seconds : F32)
    (chunk_samples : Int)
    (callback : Option vox_mic_chunk_cb) (st : State) : Option (Int × Int × State) :=
  if callback.isNone then some (-1, 0, st)
  else
    let chunk_samples := if chunk_samples ≤ 0 then 1600 else chunk_samples
    let m : vox_mic_state_t :=
      { max_samples := derive_max_samples ub max_seconds, total_samples := 0,
        should_stop := false, failed := false }
    if ¬ p.new_input_ok then some (-1, 0, st)
    else
      match allocate_buffers p (chunk_samples * 2) 3 0 st with
      | (false, st1) => some (-1, 0, st1)
      | (true, st1) =>
        if ¬ p.start_ok then some (-1, 0, st1)
        else
          match mic_control_loop callback p.polls m st1 with
          | none => none
          | some (m1, st2) => some (if m1.failed then -1 else 0, m1.total_samples, st2)

/-! ## The stdin path and `main` -/

/-- The buffering loop `while (1)` of main.c 274-284 with `k` iterations left: `size`
bytes are buffered in `buf`, `rest` is what stdin still holds.  A call
`fread(buf + size, 1, capacity - size, stdin)` delivers as many bytes as are left, up to
the count asked for.  Allocation is taken to succeed. -/
def read_all : Nat → Nat → Nat → List Byte → List Byte → Option (List Byte × Nat)
  | 0, _, _, _, _ => none
  | k + 1, capacity, size, buf, rest =>
    let capacity := if size = capacity then capacity * 2 else capacity
    let n := min (capacity - size) rest.length
    if n = 0 then some (buf, size)
    else read_all k capacity (size + n) (buf ++ rest.take n) (rest.drop n)

/-- The read loop `while (1)` of main.c 316-323 with `k` iterations left; `rest` is what
stdin still holds.  A call `fread(raw_buf, sizeof(int16_t), 4096, stdin)` delivers as many
complete 2-byte items as are left, up to 4096. -/
def raw_loop : Nat → List Byte → State → Option State
  | 0, _, _ => none
  | k + 1, rest, st =>
    let nread := min 4096 (rest.length / 2)
    if nread = 0 then some st
    else
      let raw_buf := s16_items (rest.take (2 * nread))
      let fbuf := raw_buf.map to_float
      let st1 := vox_stream_feed st fbuf 0 (nread : Int)
      raw_loop k (rest.drop (2 * nread)) (drain_tokens st1)

/-- Log a call. -/
def State.call (st : State) (c : Call) : State :=
  { st with calls := st.calls ++ [c] }

/-- The argument loop and the checks that follow it (main.c 134-194): the return code and
state when `main` returns there, otherwise the locals and state with which it goes on. -/
def main_args (env : Env) (argv : List String) (st0 : State) : (Int × State) ⊕ (Args × State) :=
  match parse_args env argv.tail Args.init st0 with
  | .inl r => .inl r
  | .inr (a, st) => if invalid_combination a then .inl (1, st) else .inr (a, st)

/-- The block `if (interval > 0)` of main.c 218-223. -/
def apply_interval (ub : F32 → Int) (interval : F32) (st : State) : State :=
  if interval > 0 then
    { st.call (Call.vox_set_processing_interval interval) with
      feed_chunk := derive_feed_chunk ub interval }
  else st

/-- The microphone branch of main.c 225-254: `false` with the state when it takes a
failure return, `true` when it falls through to the common tail. -/
def mic_source (env : Env) (mic : MicPlatform) (a : Args) (st : State) : Option (Bool × State) :=
  if ¬ env.apple then some (false, st)
  else
    let st := { st with g_stop_mic := false }
    let st := st.call (Call.vox_capture_mic_macos a.mic_seconds st.feed_chunk)
    match vox_capture_mic_macos env.float_to_int_ub mic a.mic_seconds st.feed_chunk
        (some (mic_chunk_cb true)) st with
    | none => none
    | some (rc, _, st) => if rc ≠ 0 then some (false, st) else some (true, st)

/-- The bytes of the marker `"RIFF"`. -/
def RIFF : List Byte := [82, 73, 70, 70]

/-- The stdin branch of main.c 255-324. -/
def stdin_source (env : Env) (st : State) : Option (Bool × State) :=
  let hdr := env.stdin.take 4
  let rest := env.stdin.drop 4
  if hdr.length < 4 then some (false, st)
  else if hdr = RIFF then
    match read_all (rest.length + 1) (1024 * 1024) 4 hdr rest with
    | none => none
    | some (buf, size) =>
      let st := st.call (Call.vox_parse_wav_buffer (buf.take size))
      match env.vox_parse_wav_buffer (buf.take size) with
      | none => some (false, st)
      | some samples =>
        match feed_and_drain (samples.length + 1) st samples samples.length with
        | none => none
        | some st => some (true, st)
  else
    let sv := s16_items hdr
    let f := [to_float (sv.getD 0 0), to_float (sv.getD 1 0)]
    let st := drain_tokens (vox_stream_feed st f 0 2)
    match raw_loop (rest.length / 2 + 1) rest st with
    | none => none
    | some st => some (true, st)

/-- The file branch of main.c 325-341. -/
def file_source (env : Env) (a : Args) (st : State) : Option (Bool × State) :=
  let st := st.call (Call.vox_load_wav (a.input_wav.getD ""))
  match env.vox_load_wav (a.input_wav.getD "") with
  | none => some (false, st)
  | some samples =>
    match feed_and_drain (samples.length + 1) st samples samples.length with
    | none => none
    | some st => some (true, st)

/-- The part of `main` after the argument checks (main.c 196-353, built without
`USE_METAL`): the exit code and the final state.  Diagnostics on stderr are not part of the
state.  `none` only when a loop bound is reached (see `feed_loop`, `read_all`, `raw_loop`,
`mic_control_loop`). -/
def main_run (env : Env) (mic : MicPlatform) (a : Args) (st : State) : Option (Int × State) :=
  let st := st.call (Call.vox_load (a.model_dir.getD ""))
  if ¬ env.load_ok then some (1, st)
  else
    let st := st.call Call.vox_stream_init
    if ¬ env.stream_ok then some (1, st.call Call.vox_free)
    else
      let st := if st.alt_cutoff ≥ 0 then st.call (Call.vox_stream_set_alt 3 st.alt_cutoff) else st
      let st := apply_interval env.float_to_int_ub a.interval st
      let source :=
        if a.use_mic ≠ 0 then mic_source env mic a st
        else if a.use_stdin ≠ 0 then stdin_source env st
        else file_source env a st
      match source with
      | none => none
      | some (false, st) => some (1, (st.call Call.vox_stream_free).call Call.vox_free)
      | some (true, st) =>
        let st := drain_tokens (st.call Call.vox_stream_finish)
        let st := fputs st ['\n']
        some (0, (st.call Call.vox_stream_free).call Call.vox_free)

/-- The function `main` of main.c, from the statics `st0`. -/
def main (env : Env) (mic : MicPlatform) (argv : List String) (st0 : State) :
    Option (Int × State) :=
  match main_args env argv st0 with
  | .inl r => some r
  | .inr (a, st) => main_run env mic a st

/-! ## Chunk length bounds -/

/-- From state `st` to state `st1` the chunk bound is unchanged and the feed calls made in
between all carry at least 1 and at most `B` samples. -/
def feeds_within (B : Int) (st st1 : State) : Prop :=
  st1.feed_chunk = st.feed_chunk ∧
  ∃ new : List (List Sample), fed_chunks st1.calls = fed_chunks st.calls ++ new ∧
    ∀ c ∈ new, 1 ≤ c.length ∧ (c.length : Int) ≤ B

/-! ## Command lines in the words of the specification -/

/-- An option as the usage text lists it, with its value where it takes one. -/
inductive Opt where
  | d (dir : String)
  | i (file : String)
  | I (secs : String)
  | alt (cutoff : String)
  | stdin
  | mic
  | mic_secs (secs : String)
  | debug
  | silent
  deriving DecidableEq, Repr

/-- The arguments that spell an option. -/
def Opt.argv : Opt → List String
  | .d dir => ["-d", dir]
  | .i file => ["-i", file]
  | .I secs => ["-I", secs]
  | .alt cutoff => ["--alt", cutoff]
  | .stdin => ["--stdin"]
  | .mic => ["--mic"]
  | .mic_secs secs => ["--mic-secs", secs]
  | .debug => ["--debug"]
  | .silent => ["--silent"]

/-- The argument vector `argv[1..]` that spells a list of options. -/
def render_opts : List Opt → List String
  | [] => []
  | o :: os => o.argv ++ render_opts os

/-- Follows the spec's words: the value of `-I` or of `--mic-secs` is not positive, or the
value of `--alt` is outside `[0, 1]`. -/
def Opt.out_of_range (env : Env) : Opt → Bool
  | .I secs => decide (¬ 0 < env.atof secs)
  | .mic_secs secs => decide (¬ 0 < env.atof secs)
  | .alt cutoff => decide (¬ (0 ≤ env.atof cutoff ∧ env.atof cutoff ≤ 1))
  | _ => false

/-- Whether the value of a numeric option is read as NaN. -/
def Opt.is_nan (env : Env) : Opt → Bool
  | .I secs => decide (env.atof secs = F32.nan)
  | .mic_secs secs => decide (env.atof secs = F32.nan)
  | .alt cutoff => decide (env.atof cutoff = F32.nan)
  | _ => false

/-- Whether a model directory is given. -/
def Opt.is_d : Opt → Bool
  | .d _ => true
  | _ => false

/-- Whether an input file is given. -/
def Opt.is_i : Opt → Bool
  | .i _ => true
  | _ => false

/-- Whether a duration limit is given. -/
def Opt.is_mic_secs : Opt → Bool
  | .mic_secs _ => true
  | _ => false

/-- How many of the three sources `-i <file>`, `--stdin`, `--mic` are given. -/
def sources_given (opts : List Opt) : Nat :=
  (if opts.any Opt.is_i then 1 else 0) + (if opts.any (fun o => o == Opt.stdin) then 1 else 0)
    + (if opts.any (fun o => o == Opt.mic) then 1 else 0)

/-- Follows the spec's words: the invalid combinations, namely no model directory or no
audio source, more than one source, `--mic-secs` without `--mic`, or a numeric value out of
range. -/
def rejected (env : Env) (opts : List Opt) : Bool :=
  !opts.any Opt.is_d || sources_given opts == 0 || decide (sources_given opts > 1)
    || (opts.any Opt.is_mic_secs && !opts.any (fun o => o == Opt.mic))
    || opts.any (Opt.out_of_range env)

/-! ## Concrete inputs for the worked examples -/

/-- An environment whose stdin holds `bytes`, where every resource is available, `atof`
yields `v`, both decoders yield `wav` and an undefined conversion yields `INT_MIN`. -/
def example_env (bytes : List Byte) (v : F32) (wav : Option (List Sample)) : Env :=
  { atof := fun _ => v, float_to_int_ub := fun _ => -2147483648, apple := true, load_ok := true, stream_ok := true, stdin := bytes,
    vox_load_wav := fun _ => wav, vox_parse_wav_buffer := fun _ => wav }

/-- A capture platform on which the session starts and the control loop sees `polls`. -/
def example_mic (polls : List (List MicEvent)) : MicPlatform :=
  { new_input_ok := true, allocate_ok := fun _ => true, enqueue_ok := fun _ => true,
    start_ok := true, polls := polls }

/-! ## Rendering rules in the words of the specification -/

/-- Follows the spec's words (plain mode): every fragment is written verbatim, except the
first non-empty fragment of the run, which is written with its leading spaces stripped. -/
def spec_plain_render : List CStr → List Char
  | [] => []
  | f :: fs => if f = [] then spec_plain_render fs else skip_spaces f ++ fs.flatten

/-- What the plain path writes for the fragments of a run, given the value of `first_token`
at its start: the very first fragment, empty or not, is written with its leading spaces
stripped, every other fragment verbatim. -/
def plain_render (first : Bool) (fs : List CStr) : List Char :=
  match first, fs with
  | true, f :: rest => skip_spaces f ++ rest.flatten
  | _, fs => fs.flatten

/-- Follows the spec's words (alternative mode, 3 ranked slots): a position whose rank 0
candidate `r0` is present renders as the rank 0 text alone when neither rank 1 nor rank 2 is
present, otherwise as a bracket, the candidates of ranks 0, 1, 2 up to the first absent
rank joined by a bar, and a closing bracket; leading spaces are stripped from rank 0 when
the position is the first one rendered (`first`). -/
def spec_alt_position (first : Bool) (r0 : CStr) (r1 r2 : Option CStr) : List Char :=
  let t0 := if first then skip_spaces r0 else r0
  if r1 = none ∧ r2 = none then t0
  else
    ['['] ++ ['|'].intercalate (([some t0, r1, r2].takeWhile Option.isSome).filterMap id) ++ [']']

/-- Follows the spec's words (alternative mode): the rendering of the positions of a run;
positions without a rank 0 candidate render nothing, and `first` says that no position has
been rendered yet. -/
def spec_alt_run : Bool → List (List (Option CStr)) → List Char
  | _, [] => []
  | first, p :: ps =>
    match p.getD 0 none with
    | some r0 =>
      spec_alt_position first r0 (p.getD 1 none) (p.getD 2 none) ++ spec_alt_run false ps
    | none => spec_alt_run first ps

/-! ## Helper lemmas: single precision values -/

theorem F32.zero_def : (0 : F32) = F32.num 0 := rfl

theorem F32.one_def : (1 : F32) = F32.num 1 := rfl

@[simp] theorem F32.num_lt_num (a b : ℚ) : F32.num a < F32.num b ↔ a < b := by
  show F32.lt (F32.num a) (F32.num b) = true ↔ a < b
  simp [F32.lt]

@[simp] theorem F32.num_le_num (a b : ℚ) : F32.num a ≤ F32.num b ↔ a ≤ b := by
  show F32.le (F32.num a) (F32.num b) = true ↔ a ≤ b
  simp [F32.le]

@[simp] theorem F32.zero_lt_num (q : ℚ) : (0 : F32) < F32.num q ↔ 0 < q :=
  F32.num_lt_num 0 q

@[simp] theorem F32.num_lt_zero (q : ℚ) : F32.num q < (0 : F32) ↔ q < 0 :=
  F32.num_lt_num q 0

@[simp] theorem F32.num_le_zero (q : ℚ) : F32.num q ≤ (0 : F32) ↔ q ≤ 0 :=
  F32.num_le_num q 0

@[simp] theorem F32.zero_le_num (q : ℚ) : (0 : F32) ≤ F32.num q ↔ 0 ≤ q :=
  F32.num_le_num 0 q

@[simp] theorem F32.one_lt_num (q : ℚ) : (1 : F32) < F32.num q ↔ 1 < q :=
  F32.num_lt_num 1 q

@[simp] theorem F32.num_le_one (q : ℚ) : F32.num q ≤ (1 : F32) ↔ q ≤ 1 :=
  F32.num_le_num q 1

@[simp] theorem F32.zero_le_one : (0 : F32) ≤ 1 :=
  (F32.num_le_num 0 1).mpr (by norm_num)

@[simp] theorem F32.not_one_lt_zero : ¬ (1 : F32) < 0 :=
  fun h => absurd ((F32.num_lt_num 1 0).mp h) (by norm_num)

@[simp] theorem F32.not_nan_lt (b : F32) : ¬ F32.nan < b := by
  show ¬ F32.lt F32.nan b = true
  simp [F32.lt]

@[simp] theorem F32.not_lt_nan (a : F32) : ¬ a < F32.nan := by
  show ¬ F32.lt a F32.nan = true
  cases a <;> simp [F32.lt]

@[simp] theorem F32.not_nan_le (b : F32) : ¬ F32.nan ≤ b := by
  show ¬ F32.le F32.nan b = true
  simp [F32.le]

@[simp] theorem F32.not_le_nan (a : F32) : ¬ a ≤ F32.nan := by
  show ¬ F32.le a F32.nan = true
  cases a <;> simp [F32.le]

/-- On floats `a <= b` excludes `b < a`. -/
theorem F32.not_lt_of_le (a b : F32) (h : a ≤ b) : ¬ b < a := by
  change F32.le a b = true at h
  show ¬ F32.lt b a = true
  cases a with
  | nan => simp [F32.le] at h
  | inf sa =>
    cases b with
    | nan => simp [F32.lt]
    | inf sb => cases sa <;> cases sb <;> simp [F32.le, F32.lt] at h ⊢
    | num q => cases sa <;> simp [F32.le, F32.lt] at h ⊢
  | num p =>
    cases b with
    | nan => simp [F32.lt]
    | inf sb => cases sb <;> simp [F32.le, F32.lt] at h ⊢
    | num q => simp [F32.le, F32.lt] at h ⊢; exact h

/-- Unless one side is NaN, `a <= b` fails only when `b < a`. -/
theorem F32.lt_of_not_le (a b : F32) (ha : a ≠ F32.nan) (hb : b ≠ F32.nan) (h : ¬ a ≤ b) :
    b < a := by
  change ¬ F32.le a b = true at h
  show F32.lt b a = true
  cases a with
  | nan => exact absurd rfl ha
  | inf sa =>
    cases b with
    | nan => exact absurd rfl hb
    | inf sb => cases sa <;> cases sb <;> simp [F32.le, F32.lt] at h ⊢
    | num q => cases sa <;> simp [F32.le, F32.lt] at h ⊢
  | num p =>
    cases b with
    | nan => exact absurd rfl hb
    | inf sb => cases sb <;> simp [F32.le, F32.lt] at h ⊢
    | num q => simp [F32.le, F32.lt] at h ⊢; exact h

/-- Unless one side is NaN, `a < b` fails only when `b <= a`. -/
theorem F32.le_of_not_lt (a b : F32) (ha : a ≠ F32.nan) (hb : b ≠ F32.nan) (h : ¬ a < b) :
    b ≤ a := by
  change ¬ F32.lt a b = true at h
  show F32.le b a = true
  cases a with
  | nan => exact absurd rfl ha
  | inf sa =>
    cases b with
    | nan => exact absurd rfl hb
    | inf sb => cases sa <;> cases sb <;> simp [F32.le, F32.lt] at h ⊢
    | num q => cases sa <;> simp [F32.le, F32.lt] at h ⊢
  | num p =>
    cases b with
    | nan => exact absurd rfl hb
    | inf sb => cases sb <;> simp [F32.le, F32.lt] at h ⊢
    | num q => simp [F32.le, F32.lt] at h ⊢; exact h

/-- On floats `a < b` excludes `b <= a`. -/
theorem F32.not_le_of_lt (a b : F32) (h : a < b) : ¬ b ≤ a :=
  fun h1 => F32.not_lt_of_le b a h1 h

theorem F32.zero_ne_nan : (0 : F32) ≠ F32.nan := by
  intro h; cases h

theorem F32.one_ne_nan : (1 : F32) ≠ F32.nan := by
  intro h; cases h

/-- For a value that is a number or an infinity, "not positive" is the test `v <= 0`. -/
theorem F32.not_pos_iff (v : F32) (hv : v ≠ F32.nan) : ¬ 0 < v ↔ v ≤ 0 :=
  ⟨F32.le_of_not_lt 0 v F32.zero_ne_nan hv, F32.not_lt_of_le v 0⟩

/-- For a value that is a number or an infinity, "outside `[0, 1]`" is the test
`v < 0 || v > 1`. -/
theorem F32.outside_iff (v : F32) (hv : v ≠ F32.nan) :
    ¬ (0 ≤ v ∧ v ≤ 1) ↔ (v < 0 ∨ v > 1) := by
  constructor
  · intro h
    by_cases h0 : v < 0
    · exact Or.inl h0
    · by_cases h1 : v > 1
      · exact Or.inr h1
      · exact absurd ⟨F32.le_of_not_lt v 0 hv F32.zero_ne_nan h0,
          F32.le_of_not_lt 1 v F32.one_ne_nan hv h1⟩ h
  · rintro (h | h) ⟨h0, h1⟩
    · exact F32.not_lt_of_le 0 v h0 h
    · exact F32.not_lt_of_le v 1 h1 h

/-- A positive float is the positive infinity or a positive number. -/
theorem F32.pos_cases (a : F32) (h : 0 < a) :
    a = F32.inf false ∨ ∃ q : ℚ, a = F32.num q ∧ 0 < q := by
  cases a with
  | nan => exact absurd h (F32.not_lt_nan _)
  | inf s =>
    cases s with
    | false => exact Or.inl rfl
    | true =>
      change F32.lt (F32.num 0) (F32.inf true) = true at h
      simp [F32.lt] at h
  | num q => exact Or.inr ⟨q, rfl, by simpa using h⟩

/-- The binary exponent of a positive number from its enclosing powers of two. -/
theorem f32_exponent (x : ℚ) (e : Int) (hx : 0 < x) (hlo : (2 : ℚ) ^ e ≤ x)
    (hhi : x < (2 : ℚ) ^ (e + 1)) : Int.log 2 x = e := by
  have h1 : e ≤ Int.log 2 x := by
    rw [← Int.zpow_le_iff_le_log (by norm_num) hx]; exact_mod_cast hlo
  have h2 : Int.log 2 x < e + 1 := by
    rw [← Int.lt_zpow_iff_log_lt (by norm_num) hx]; exact_mod_cast hhi
  omega

/-- Rounding of a positive number in the binade of exponent `e`, with the spacing `ulp` of
that binade and the integer part `k` of its significand. -/
theorem f32_round_pos (x ulp : ℚ) (e k : Int) (hx : 0 < x) (hlo : (2 : ℚ) ^ e ≤ x)
    (hhi : x < (2 : ℚ) ^ (e + 1)) (he : -126 ≤ e) (hulp : ulp = (2 : ℚ) ^ (e - 23))
    (hk : ⌊x / ulp⌋ = k) :
    f32_round x =
      if (2 : ℚ) ^ (128 : Nat) ≤
          ((if x / ulp - k < 1 / 2 then k
            else if 1 / 2 < x / ulp - k then k + 1
            else if k % 2 = 0 then k else k + 1 : Int) : ℚ) * ulp
      then F32.inf false
      else F32.num (((if x / ulp - k < 1 / 2 then k
            else if 1 / 2 < x / ulp - k then k + 1
            else if k % 2 = 0 then k else k + 1 : Int) : ℚ) * ulp) := by
  subst hulp
  unfold f32_round
  rw [if_neg (ne_of_gt hx)]
  simp only [abs_of_pos hx, f32_exponent x e hx hlo hhi, max_eq_left he, hk,
    not_lt.mpr (le_of_lt hx), if_false, decide_False]

/-- Rounding down: the number lies in the lower half of the gap above `k * ulp`. -/
theorem f32_round_down (x ulp : ℚ) (e k : Int) (hx : 0 < x) (hlo : (2 : ℚ) ^ e ≤ x)
    (hhi : x < (2 : ℚ) ^ (e + 1)) (he : -126 ≤ e) (hulp : ulp = (2 : ℚ) ^ (e - 23))
    (hk : (k : ℚ) * ulp ≤ x) (hf : x < ((k : ℚ) + 1 / 2) * ulp)
    (hov : (k : ℚ) * ulp < (2 : ℚ) ^ (128 : Nat)) :
    f32_round x = F32.num ((k : ℚ) * ulp) := by
  have hu : 0 < ulp := by rw [hulp]; positivity
  have h1 : (k : ℚ) ≤ x / ulp := by rw [le_div_iff₀ hu]; exact hk
  have h2 : x / ulp < (k : ℚ) + 1 / 2 := by rw [div_lt_iff₀ hu]; exact hf
  have hfl : ⌊x / ulp⌋ = k := by
    rw [Int.floor_eq_iff]; exact ⟨h1, by linarith⟩
  rw [f32_round_pos x ulp e k hx hlo hhi he hulp hfl]
  have h3 : x / ulp - k < 1 / 2 := by linarith
  rw [if_pos h3, if_neg (not_le.mpr hov)]

/-- Rounding up: the number lies in the upper half of the gap above `k * ulp`. -/
theorem f32_round_up (x ulp : ℚ) (e k : Int) (hx : 0 < x) (hlo : (2 : ℚ) ^ e ≤ x)
    (hhi : x < (2 : ℚ) ^ (e + 1)) (he : -126 ≤ e) (hulp : ulp = (2 : ℚ) ^ (e - 23))
    (hk : ((k : ℚ) + 1 / 2) * ulp < x) (hf : x < ((k : ℚ) + 1) * ulp)
    (hov : ((k : ℚ) + 1) * ulp < (2 : ℚ) ^ (128 : Nat)) :
    f32_round x = F32.num (((k : ℚ) + 1) * ulp) := by
  have hu : 0 < ulp := by rw [hulp]; positivity
  have h1 : (k : ℚ) + 1 / 2 < x / ulp := by rw [lt_div_iff₀ hu]; exact hk
  have h2 : x / ulp < (k : ℚ) + 1 := by rw [div_lt_iff₀ hu]; exact hf
  have hfl : ⌊x / ulp⌋ = k := by
    rw [Int.floor_eq_iff]; exact ⟨by linarith, h2⟩
  rw [f32_round_pos x ulp e k hx hlo hhi he hulp hfl]
  have h3 : ¬ (x / ulp - k < 1 / 2) := by linarith
  have h4 : 1 / 2 < x / ulp - k := by linarith
  rw [if_neg h3, if_pos h4, if_neg (not_le.mpr (by push_cast; exact hov))]
  push_cast
  rfl

/-- The conversion to `int` of a non-negative number whose integer part is an `int`. -/
theorem f2i_num (ub : F32 → Int) (q : ℚ) (t : Int) (h0 : 0 ≤ q) (ht : ⌊q⌋ = t)
    (hr : t ≤ 2147483647) : f2i ub (F32.num q) = t := by
  have ht0 : 0 ≤ t := by rw [← ht]; exact Int.floor_nonneg.mpr h0
  unfold f2i
  simp only [if_pos h0, ht]
  rw [if_pos ⟨by omega, hr⟩]

/-- Rounding keeps a non-negative number non-negative. -/
theorem f32_round_nonneg (x y : ℚ) (hx : 0 ≤ x) (h : f32_round x = F32.num y) : 0 ≤ y := by
  unfold f32_round at h
  by_cases h0 : x = 0
  · rw [if_pos h0] at h
    injection h with h
    rw [← h]
  · rw [if_neg h0] at h
    simp only [not_lt.mpr hx, if_false, decide_False] at h
    have hk : (0 : ℚ) ≤ ((⌊|x| / (2 : ℚ) ^ (max (Int.log 2 |x|) (-126) - 23)⌋ : Int) : ℚ) := by
      have : 0 ≤ ⌊|x| / (2 : ℚ) ^ (max (Int.log 2 |x|) (-126) - 23)⌋ :=
        Int.floor_nonneg.mpr (div_nonneg (abs_nonneg x) (by positivity))
      exact_mod_cast this
    have hu : (0 : ℚ) ≤ (2 : ℚ) ^ (max (Int.log 2 |x|) (-126) - 23) := by positivity
    split_ifs at h <;> injection h with h <;> rw [← h] <;> push_cast <;> nlinarith

/-- The product of a positive float and a positive constant, when a number, is not
negative. -/
theorem F32.scale_nonneg (s : F32) (c y : ℚ) (hs : 0 < s) (hc : 0 < c)
    (h : s.scale c = F32.num y) : 0 ≤ y := by
  rcases F32.pos_cases s hs with rfl | ⟨q, rfl, hq⟩
  · simp [F32.scale] at h
  · exact f32_round_nonneg (q * c) y (by positivity) h

/-- The single precision product `0.7f * 16000`: the exact product 11199.9998... lies
within half a spacing (2^-11) of 11200 and rounds to it. -/
theorem f32_scale_seven_tenths :
    (F32.num (11744051 / 16777216)).scale 16000 = F32.num 11200 := by
  have h := f32_round_up (11744051 / 16777216 * 16000) (1 / 1024) 13 11468799 (by norm_num)
    (by norm_num) (by norm_num) (by norm_num) (by norm_num) (by norm_num) (by norm_num)
    (by norm_num)
  simp only [F32.scale]
  rw [h]
  norm_num

/-- The single precision product `0.5f * 16000` is exact. -/
theorem f32_scale_half : (F32.num (1 / 2)).scale 16000 = F32.num 8000 := by
  have h := f32_round_down (1 / 2 * 16000) (1 / 2048) 12 16384000 (by norm_num)
    (by norm_num) (by norm_num) (by norm_num) (by norm_num) (by norm_num) (by norm_num)
    (by norm_num)
  simp only [F32.scale]
  rw [h]
  norm_num

/-! ## Helper lemmas: what draining leaves untouched -/

theorem drain_plain_token_calls (st : State) (t : CStr) :
    (drain_plain_token st t).calls = st.calls ∧
    (drain_plain_token st t).feed_chunk = st.feed_chunk ∧
    (drain_plain_token st t).alt_cutoff = st.alt_cutoff ∧
    (drain_plain_token st t).g_stop_mic = st.g_stop_mic := by
  unfold drain_plain_token fputs
  split <;> simp

theorem foldl_drain_plain_token_calls (b : List CStr) (st : State) :
    (b.foldl drain_plain_token st).calls = st.calls ∧
    (b.foldl drain_plain_token st).feed_chunk = st.feed_chunk ∧
    (b.foldl drain_plain_token st).alt_cutoff = st.alt_cutoff ∧
    (b.foldl drain_plain_token st).g_stop_mic = st.g_stop_mic := by
  induction b generalizing st with
  | nil => simp
  | cons t ts ih =>
    simp only [List.foldl_cons]
    obtain ⟨h1, h2, h3, h4⟩ := ih (drain_plain_token st t)
    obtain ⟨g1, g2, g3, g4⟩ := drain_plain_token_calls st t
    exact ⟨h1.trans g1, h2.trans g2, h3.trans g3, h4.trans g4⟩

theorem drain_plain_calls (gs : List (List CStr)) (st : State) :
    (drain_plain gs st).calls = st.calls ∧
    (drain_plain gs st).feed_chunk = st.feed_chunk ∧
    (drain_plain gs st).alt_cutoff = st.alt_cutoff ∧
    (drain_plain gs st).g_stop_mic = st.g_stop_mic := by
  induction gs generalizing st with
  | nil => simp [drain_plain]
  | cons b rest ih =>
    unfold drain_plain
    split
    · obtain ⟨h1, h2, h3, h4⟩ := ih (b.foldl drain_plain_token { st with gets := rest })
      obtain ⟨g1, g2, g3, g4⟩ := foldl_drain_plain_token_calls b { st with gets := rest }
      exact ⟨h1.trans g1, h2.trans g2, h3.trans g3, h4.trans g4⟩
    · simp

theorem alt_listing_calls (slots : List (Option CStr)) (k a : Nat) (st : State) :
    (alt_listing slots k a st).calls = st.calls ∧
    (alt_listing slots k a st).feed_chunk = st.feed_chunk ∧
    (alt_listing slots k a st).alt_cutoff = st.alt_cutoff ∧
    (alt_listing slots k a st).g_stop_mic = st.g_stop_mic := by
  induction k generalizing a st with
  | zero => simp [alt_listing]
  | succ k ih =>
    unfold alt_listing
    cases slots.getD a none with
    | none => simp
    | some alt =>
      rcases Nat.eq_zero_or_pos a with ha | ha
      · by_cases hf : st.first_token = true <;> simp [ha, hf, ih, fputs]
      · have ha0 : a ≠ 0 := Nat.pos_iff_ne_zero.mp ha
        simp [ha, ha0, ih, fputs, fputc]

theorem drain_alt_position_calls (n : Nat) (st : State) (slots : List (Option CStr)) :
    (drain_alt_position n st slots).calls = st.calls ∧
    (drain_alt_position n st slots).feed_chunk = st.feed_chunk ∧
    (drain_alt_position n st slots).alt_cutoff = st.alt_cutoff ∧
    (drain_alt_position n st slots).g_stop_mic = st.g_stop_mic := by
  unfold drain_alt_position
  split
  · simp
  · split
    · obtain ⟨h1, h2, h3, h4⟩ := alt_listing_calls slots n 0 (fputc st '[')
      simp only [fputc] at h1 h2 h3 h4 ⊢
      exact ⟨h1, h2, h3, h4⟩
    · split <;> simp [fputs]

theorem foldl_drain_alt_position_calls (n : Nat) (b : List (List (Option CStr))) (st : State) :
    (b.foldl (drain_alt_position n) st).calls = st.calls ∧
    (b.foldl (drain_alt_position n) st).feed_chunk = st.feed_chunk ∧
    (b.foldl (drain_alt_position n) st).alt_cutoff = st.alt_cutoff ∧
    (b.foldl (drain_alt_position n) st).g_stop_mic = st.g_stop_mic := by
  induction b generalizing st with
  | nil => simp
  | cons t ts ih =>
    simp only [List.foldl_cons]
    obtain ⟨h1, h2, h3, h4⟩ := ih (drain_alt_position n st t)
    obtain ⟨g1, g2, g3, g4⟩ := drain_alt_position_calls n st t
    exact ⟨h1.trans g1, h2.trans g2, h3.trans g3, h4.trans g4⟩

theorem drain_alt_calls (gs : List (List (List (Option CStr)))) (st : State) :
    (drain_alt gs st).calls = st.calls ∧
    (drain_alt gs st).feed_chunk = st.feed_chunk ∧
    (drain_alt gs st).alt_cutoff = st.alt_cutoff ∧
    (drain_alt gs st).g_stop_mic = st.g_stop_mic := by
  induction gs generalizing st with
  | nil => simp [drain_alt]
  | cons b rest ih =>
    unfold drain_alt
    split
    · obtain ⟨h1, h2, h3, h4⟩ := ih (b.foldl (drain_alt_position 3) { st with gets_alt := rest })
      obtain ⟨g1, g2, g3, g4⟩ := foldl_drain_alt_position_calls 3 b { st with gets_alt := rest }
      exact ⟨h1.trans g1, h2.trans g2, h3.trans g3, h4.trans g4⟩
    · simp

theorem drain_tokens_calls (st : State) :
    (drain_tokens st).calls = st.calls ∧
    (drain_tokens st).feed_chunk = st.feed_chunk ∧
    (drain_tokens st).alt_cutoff = st.alt_cutoff ∧
    (drain_tokens st).g_stop_mic = st.g_stop_mic := by
  unfold drain_tokens
  split
  · exact drain_plain_calls _ _
  · exact drain_alt_calls _ _


/-! ## The chunk feeder -/

theorem ceil_div_small (d B : Nat) (hd : 0 < d) (hdB : d ≤ B) : (d + B - 1) / B = 1 := by
  have h1 : d + B - 1 = (d - 1) + B := by omega
  rw [h1, Nat.add_div_right _ (by omega), Nat.div_eq_of_lt (by omega)]

theorem ceil_div_step (d B : Nat) (hB : 0 < B) (hdB : B < d) :
    (d + B - 1) / B = (d - B + B - 1) / B + 1 := by
  have h1 : d + B - 1 = (d - B + B - 1) + B := by omega
  rw [h1, Nat.add_div_right _ hB]

theorem feed_loop_spec (samples : List Sample) (B : Nat) (hB : 1 ≤ B) :
    ∀ (fuel off : Nat) (st : State), st.feed_chunk = (B : Int) → off ≤ samples.length →
      samples.length - off < fuel →
      ∃ (st1 : State) (chunks : List (List Sample)),
        feed_loop samples samples.length fuel off st = some st1 ∧
        st1.calls = st.calls ++ chunks.map Call.vox_stream_feed ∧
        st1.feed_chunk = (B : Int) ∧
        chunks.length = (samples.length - off + B - 1) / B ∧
        (∀ c ∈ chunks, 1 ≤ c.length ∧ c.length ≤ B) ∧
        chunks.flatten = samples.drop off ∧
        (∀ i, i < chunks.length → chunks[i]? = some ((samples.drop (off + i * B)).take B)) := by
  intro fuel
  induction fuel with
  | zero => intro off st _ _ h; omega
  | succ fuel ih =>
    intro off st hst hoff hfuel
    unfold feed_loop
    by_cases hlt : off < samples.length
    · have hlt' : (off : Int) < (samples.length : Int) := by exact_mod_cast hlt
      rw [if_pos hlt']
      dsimp only
      by_cases hbig : B < samples.length - off
      · -- a full chunk of B samples
        have hc : ((samples.length : Int) - (off : Int) > st.feed_chunk) := by
          rw [hst]; omega
        rw [if_pos hc, hst]
        have hoff2 : (off : Int) + (B : Int) = ((off + B : Nat) : Int) := by push_cast; rfl
        rw [hoff2]
        obtain ⟨g1, g2, _, _⟩ := drain_tokens_calls (vox_stream_feed st samples off B)
        obtain ⟨st', chunks, h1, h2, h3, h4, h5, h6, h7⟩ :=
          ih (off + B) (drain_tokens (vox_stream_feed st samples off B))
            (by rw [g2]; simpa [vox_stream_feed] using hst) (by omega) (by omega)
        refine ⟨st', ((samples.drop off).take B) :: chunks, h1, ?_, h3, ?_, ?_, ?_, ?_⟩
        · rw [h2, g1]; simp [vox_stream_feed]
        · rw [List.length_cons, h4, ceil_div_step _ _ hB hbig]
          congr 2; omega
        · intro c hc
          rcases List.mem_cons.mp hc with rfl | hc
          · simp only [List.length_take, List.length_drop]; omega
          · exact h5 c hc
        · rw [List.flatten_cons, h6, ← List.drop_drop, List.take_append_drop]
        · intro i hi
          cases i with
          | zero => simp
          | succ i =>
            rw [List.getElem?_cons_succ, h7 i (by simpa using hi)]
            congr 3; ring
      · -- the last, possibly short, chunk
        have hc : ¬ ((samples.length : Int) - (off : Int) > st.feed_chunk) := by
          rw [hst]; omega
        rw [if_neg hc]
        have hoff2 : (off : Int) + ((samples.length : Int) - (off : Int))
            = ((samples.length : Nat) : Int) := by ring
        rw [hoff2]
        have hn : ((samples.length : Int) - (off : Int)).toNat = samples.length - off := by omega
        obtain ⟨g1, g2, _, _⟩ := drain_tokens_calls
          (vox_stream_feed st samples off ((samples.length : Int) - (off : Int)))
        obtain ⟨st', chunks, h1, h2, h3, h4, h5, h6, h7⟩ :=
          ih samples.length
            (drain_tokens (vox_stream_feed st samples off ((samples.length : Int) - (off : Int))))
            (by rw [g2]; simpa [vox_stream_feed] using hst) (le_refl _) (by omega)
        have hnil : chunks = [] := by
          apply List.eq_nil_of_length_eq_zero
          rw [h4, Nat.sub_self, Nat.zero_add]
          exact Nat.div_eq_of_lt (by omega)
        subst hnil
        have htake : (samples.drop off).take (samples.length - off) = samples.drop off := by
          apply List.take_of_length_le; simp
        have htakeB : (samples.drop off).take B = samples.drop off := by
          apply List.take_of_length_le; simp; omega
        refine ⟨st', [samples.drop off], h1, ?_, h3, ?_, ?_, ?_, ?_⟩
        · rw [h2, g1]; simp [vox_stream_feed, hn, htake]
        · rw [ceil_div_small _ _ (by omega) (by omega)]; rfl
        · intro c hc
          rw [List.mem_singleton] at hc
          subst hc
          simp only [List.length_drop]; omega
        · simp
        · intro i hi
          have hi0 : i = 0 := by simpa using hi
          subst hi0
          simp [htakeB]
    · have hlt' : ¬ ((off : Int) < (samples.length : Int)) := by omega
      rw [if_neg hlt']
      have hz : samples.length - off = 0 := by omega
      refine ⟨st, [], rfl, by simp, hst, ?_, by simp, ?_, by simp⟩
      · rw [hz, Nat.zero_add]; exact (Nat.div_eq_of_lt (by omega)).symm
      · rw [List.drop_of_length_le (by omega)]; rfl


theorem ceil_div_cast (n b : Nat) (hb : 0 < b) :
    (((n + b - 1) / b : Nat) : Int) = ⌈(n : ℚ) / (b : ℚ)⌉ := by
  symm
  rw [Int.ceil_eq_iff]
  have hb' : (0 : ℚ) < (b : ℚ) := by exact_mod_cast hb
  have hm := Nat.div_add_mod (n + b - 1) b
  have hlt := Nat.mod_lt (n + b - 1) hb
  set k := (n + b - 1) / b with hk
  have h1 : b * k < n + b := by omega
  have h2 : n ≤ b * k := by omega
  constructor
  · rw [lt_div_iff₀ hb']
    have : ((b * k : Nat) : ℚ) < ((n + b : Nat) : ℚ) := by exact_mod_cast h1
    push_cast at this ⊢
    linarith
  · rw [div_le_iff₀ hb']
    have : ((n : Nat) : ℚ) ≤ ((b * k : Nat) : ℚ) := by exact_mod_cast h2
    push_cast at this ⊢
    linarith

/-- C1: for a chunk bound `feed_chunk = B ≥ 1` and a buffer of `N` samples, `feed_and_drain`
returns (any iteration bound above `N` is enough) having forwarded exactly `⌈N / B⌉` chunks to
the engine, each of length at most `B`, with lengths summing to `N`. -/
theorem feed_and_drain_chunk_count (st : State) (samples : List Sample) (fuel : Nat)
    (hB : 1 ≤ st.feed_chunk) (hfuel : samples.length < fuel) :
    ∃ (st1 : State) (chunks : List (List Sample)),
      feed_and_drain fuel st samples samples.length = some st1 ∧
      st1.calls = st.calls ++ chunks.map Call.vox_stream_feed ∧
      (chunks.length : Int) = ⌈(samples.length : ℚ) / (st.feed_chunk : ℚ)⌉ ∧
      (∀ c ∈ chunks, (c.length : Int) ≤ st.feed_chunk) ∧
      (chunks.map List.length).sum = samples.length := by
  have hst : st.feed_chunk = ((st.feed_chunk.toNat : Nat) : Int) := by omega
  obtain ⟨st1, chunks, h1, h2, _, h4, h5, h6, _⟩ :=
    feed_loop_spec samples st.feed_chunk.toNat (by omega) fuel 0 st hst (Nat.zero_le _)
      (by simpa using hfuel)
  refine ⟨st1, chunks, h1, h2, ?_, ?_, ?_⟩
  · rw [h4, Nat.sub_zero, ceil_div_cast _ _ (by omega)]
    congr 2
    rw [← Int.cast_natCast (R := ℚ), ← hst]
  · intro c hc
    have := (h5 c hc).2
    omega
  · have := congrArg List.length h6
    rw [List.length_flatten] at this
    simpa using this

theorem feed_and_drain_three_seconds (st : State) (samples : List Sample)
    (hB : st.feed_chunk = 16000) (hN : samples.length = 48000) :
    ∃ (st1 : State) (chunks : List (List Sample)),
      feed_and_drain 48001 st samples 48000 = some st1 ∧
      st1.calls = st.calls ++ chunks.map Call.vox_stream_feed ∧
      chunks.length = 3 ∧ ∀ c ∈ chunks, c.length = 16000 := by
  obtain ⟨st1, chunks, h1, h2, _, h4, _, _, h7⟩ :=
    feed_loop_spec samples 16000 (by norm_num) 48001 0 st (by rw [hB]; rfl) (Nat.zero_le _)
      (by rw [hN]; norm_num)
  have hlen : chunks.length = 3 := by rw [h4, hN]
  refine ⟨st1, chunks, ?_, h2, hlen, ?_⟩
  · unfold feed_and_drain
    rw [hN] at h1
    exact h1
  · intro c hc
    obtain ⟨i, hi, hci⟩ := List.getElem_of_mem hc
    have h := h7 i hi
    rw [List.getElem?_eq_getElem hi, hci, Option.some.injEq] at h
    rw [h, List.length_take, List.length_drop, hN]
    rw [hlen] at hi
    omega

theorem slice_of_flatten {α : Type} (cs : List (List α)) :
    ∀ (i : Nat) (c : List α), cs[i]? = some c →
      (cs.flatten.drop (cs.take i).flatten.length).take c.length = c := by
  induction cs with
  | nil => intro i c h; simp at h
  | cons x xs ih =>
    intro i c h
    cases i with
    | zero =>
      simp only [List.getElem?_cons_zero, Option.some.injEq] at h
      subst h
      simp
    | succ i =>
      rw [List.getElem?_cons_succ] at h
      have := ih i c h
      simp only [List.take_succ_cons, List.flatten_cons, List.length_append]
      rw [List.drop_append]
      exact this

theorem feed_and_drain_slices (st : State) (samples : List Sample) (fuel : Nat)
    (hB : 1 ≤ st.feed_chunk) (hfuel : samples.length < fuel) :
    ∃ (st1 : State) (chunks : List (List Sample)),
      feed_and_drain fuel st samples samples.length = some st1 ∧
      st1.calls = st.calls ++ chunks.map Call.vox_stream_feed ∧
      chunks.flatten = samples ∧
      st1.feed_chunk = st.feed_chunk ∧
      (∀ c ∈ chunks, 1 ≤ c.length ∧ (c.length : Int) ≤ st.feed_chunk) := by
  have hst : st.feed_chunk = ((st.feed_chunk.toNat : Nat) : Int) := by omega
  obtain ⟨st1, chunks, h1, h2, h3, _, h5, h6, _⟩ :=
    feed_loop_spec samples st.feed_chunk.toNat (by omega) fuel 0 st hst (Nat.zero_le _)
      (by simpa using hfuel)
  refine ⟨st1, chunks, h1, h2, by simpa using h6, by rw [h3, ← hst], ?_⟩
  intro c hc
  have := h5 c hc
  omega

/-- C2: for a chunk bound `feed_chunk = B ≥ 1`, the chunks `feed_and_drain` forwards,
concatenated in forwarding order, are the input buffer; chunk `i` is the slice of at most `B`
samples that starts at offset `i * B`, where chunk `i - 1` ended. -/
theorem feed_and_drain_concat (st : State) (samples : List Sample) (fuel : Nat)
    (hB : 1 ≤ st.feed_chunk) (hfuel : samples.length < fuel) :
    ∃ (st1 : State) (chunks : List (List Sample)),
      feed_and_drain fuel st samples samples.length = some st1 ∧
      st1.calls = st.calls ++ chunks.map Call.vox_stream_feed ∧
      chunks.flatten = samples ∧
      (∀ i, i < chunks.length →
        chunks[i]? = some ((samples.drop (i * st.feed_chunk.toNat)).take st.feed_chunk.toNat)) ∧
      (∀ (i : Nat) (c : List Sample), chunks[i]? = some c →
        c = (samples.drop (chunks.take i).flatten.length).take c.length) := by
  have hst : st.feed_chunk = ((st.feed_chunk.toNat : Nat) : Int) := by omega
  obtain ⟨st1, chunks, h1, h2, _, h4, h5, h6, h7⟩ :=
    feed_loop_spec samples st.feed_chunk.toNat (by omega) fuel 0 st hst (Nat.zero_le _)
      (by simpa using hfuel)
  refine ⟨st1, chunks, h1, h2, by simpa using h6, ?_, ?_⟩
  · intro i hi
    simpa using h7 i hi
  · intro i c hc
    have h := slice_of_flatten chunks i c hc
    rw [h6, List.drop_zero] at h
    exact h.symm


theorem feed_and_drain_chunk_count_witness :
    (1 : Int) ≤ ({ State.init [] [] with feed_chunk := 2 } : State).feed_chunk ∧
    ([1, 2, 3, 4, 5] : List Sample).length < 6 ∧
    ∃ (st1 : State) (chunks : List (List Sample)),
      feed_and_drain 6 { State.init [] [] with feed_chunk := 2 } [1, 2, 3, 4, 5] 5 = some st1 ∧
      st1.calls = chunks.map Call.vox_stream_feed ∧
      chunks.length = 3 ∧
      (∀ c ∈ chunks, c.length ≤ 2) ∧
      (chunks.map List.length).sum = 5 := by
  refine ⟨by decide, by decide, ?_⟩
  obtain ⟨st1, chunks, h1, h2, h3, h4, h5⟩ :=
    feed_and_drain_chunk_count { State.init [] [] with feed_chunk := 2 } [1, 2, 3, 4, 5] 6
      (by decide) (by decide)
  have hc : ⌈((([1, 2, 3, 4, 5] : List Sample).length : Nat) : ℚ)
      / ((({ State.init [] [] with feed_chunk := 2 } : State).feed_chunk : Int) : ℚ)⌉ = 3 := by
    rw [Int.ceil_eq_iff]
    norm_num
  rw [hc] at h3
  refine ⟨st1, chunks, by simpa using h1, by simpa [State.init] using h2,
    by exact_mod_cast h3, ?_, by simpa using h5⟩
  intro c hc
  have := h4 c hc
  simp only at this
  exact_mod_cast this

theorem feed_and_drain_concat_witness :
    (1 : Int) ≤ ({ State.init [] [] with feed_chunk := 2 } : State).feed_chunk ∧
    ([1, 2, 3, 4, 5] : List Sample).length < 6 ∧
    ∃ (st1 : State) (chunks : List (List Sample)),
      feed_and_drain 6 { State.init [] [] with feed_chunk := 2 } [1, 2, 3, 4, 5] 5 = some st1 ∧
      st1.calls = chunks.map Call.vox_stream_feed ∧
      chunks.flatten = [1, 2, 3, 4, 5] := by
  refine ⟨by decide, by decide, ?_⟩
  obtain ⟨st1, chunks, h1, h2, h3, _, _⟩ :=
    feed_and_drain_concat { State.init [] [] with feed_chunk := 2 } [1, 2, 3, 4, 5] 6
      (by decide) (by decide)
  exact ⟨st1, chunks, by simpa using h1, by simpa [State.init] using h2, h3⟩

/-! ## Rendering -/

theorem drain_alt_position_spec (st : State) (slots : List (Option CStr)) (r0 : CStr)
    (h0 : slots.getD 0 none = some r0) :
    drain_alt_position 3 st slots =
      { st with first_token := false,
                out := st.out ++ spec_alt_position st.first_token r0
                  (slots.getD 1 none) (slots.getD 2 none) } := by
  unfold drain_alt_position
  rw [h0]
  simp only [has_alt, List.range', List.any_cons, List.any_nil, Bool.or_false]
  simp only [alt_listing, Nat.reduceAdd, h0]
  generalize slots.getD 1 none = r1
  generalize slots.getD 2 none = r2
  cases r1 <;> cases r2 <;> cases hf : st.first_token <;>
    simp [hf, fputs, fputc, spec_alt_position, List.intercalate]


theorem isEmpty_append_eq {α : Type} (a b : List α) :
    (a ++ b).isEmpty = (a.isEmpty && b.isEmpty) := by
  cases a <;> simp

theorem plain_render_append (f : Bool) (a b : List CStr) :
    plain_render f (a ++ b) = plain_render f a ++ plain_render (f && a.isEmpty) b := by
  cases f <;> cases a <;> cases b <;> simp [plain_render]

theorem drain_plain_token_spec (st : State) (t : CStr) :
    drain_plain_token st t =
      { st with first_token := false, out := st.out ++ plain_render st.first_token [t] } := by
  unfold drain_plain_token
  cases hf : st.first_token <;> simp [hf, fputs, plain_render]

theorem foldl_drain_plain_token_spec (b : List CStr) (st : State) :
    b.foldl drain_plain_token st =
      { st with first_token := st.first_token && b.isEmpty,
                out := st.out ++ plain_render st.first_token b } := by
  induction b generalizing st with
  | nil => simp [plain_render]
  | cons t ts ih =>
    rw [List.foldl_cons, ih, drain_plain_token_spec]
    have := plain_render_append st.first_token [t] ts
    simp only [List.singleton_append] at this
    simp [this]

theorem drain_plain_spec (gs : List (List CStr)) (st : State) :
    ∃ consumed : List (List CStr), gs = consumed ++ (drain_plain gs st).gets ∧
      (drain_plain gs st).out = st.out ++ plain_render st.first_token consumed.flatten ∧
      (drain_plain gs st).first_token = (st.first_token && consumed.flatten.isEmpty) := by
  induction gs generalizing st with
  | nil => exact ⟨[], by simp [drain_plain, plain_render]⟩
  | cons b rest ih =>
    unfold drain_plain
    split
    · obtain ⟨c, h1, h2, h3⟩ := ih (b.foldl drain_plain_token { st with gets := rest })
      refine ⟨b :: c, ?_, ?_, ?_⟩
      · rw [List.cons_append, ← h1]
      · rw [h2, foldl_drain_plain_token_spec, List.flatten_cons, plain_render_append]
        simp [List.append_assoc]
      · rw [h3, foldl_drain_plain_token_spec, List.flatten_cons, isEmpty_append_eq]
        simp [Bool.and_assoc]
    · have hb : b = [] := by
        cases b with
        | nil => rfl
        | cons x xs => simp at *
      subst hb
      exact ⟨[[]], by simp [plain_render]⟩

/-- C4 (amended): in plain mode, over any number of `drain_tokens` calls, the output grows by
the fragments the engine returned in those calls, each verbatim except the very first
fragment of the run (empty or not), whose leading spaces are stripped; `first_token` is
cleared by that first fragment and stays cleared. -/
theorem drain_tokens_plain_run (st : State) (k : Nat) (h : st.alt_cutoff < 0) :
    ∃ consumed : List (List CStr), st.gets = consumed ++ (drain_tokens^[k] st).gets ∧
      (drain_tokens^[k] st).out = st.out ++ plain_render st.first_token consumed.flatten ∧
      (drain_tokens^[k] st).first_token = (st.first_token && consumed.flatten.isEmpty) := by
  induction k generalizing st with
  | zero => exact ⟨[], by simp [plain_render]⟩
  | succ k ih =>
    rw [Function.iterate_succ_apply]
    have hd : drain_tokens st = drain_plain st.gets st := by
      unfold drain_tokens; rw [if_pos h]
    obtain ⟨c1, a1, a2, a3⟩ := drain_plain_spec st.gets st
    obtain ⟨c2, b1, b2, b3⟩ := ih (drain_tokens st) (by rw [(drain_tokens_calls st).2.2.1]; exact h)
    rw [hd] at b1 b2 b3 ⊢
    refine ⟨c1 ++ c2, ?_, ?_, ?_⟩
    · rw [List.append_assoc, ← b1, ← a1]
    · rw [b2, a2, a3, List.flatten_append, plain_render_append, List.append_assoc]
    · rw [b3, a3, List.flatten_append, isEmpty_append_eq]
      simp [Bool.and_assoc]

theorem drain_tokens_plain_run_witness :
    (State.init [[[' ', 'a'], [' ', 'b']], [], [[' ', 'c']]] []).alt_cutoff < 0 ∧
    (∃ consumed : List (List CStr),
      [[[' ', 'a'], [' ', 'b']], [], [[' ', 'c']]] = consumed ++
        (drain_tokens^[2] (State.init [[[' ', 'a'], [' ', 'b']], [], [[' ', 'c']]] [])).gets ∧
      (drain_tokens^[2] (State.init [[[' ', 'a'], [' ', 'b']], [], [[' ', 'c']]] [])).out =
        plain_render true consumed.flatten) ∧
    (drain_tokens^[2] (State.init [[[' ', 'a'], [' ', 'b']], [], [[' ', 'c']]] [])).out =
      ['a', ' ', 'b', ' ', 'c'] := by
  have h : (State.init [[[' ', 'a'], [' ', 'b']], [], [[' ', 'c']]] []).alt_cutoff < 0 := by
    simp [State.init]
  obtain ⟨c, h1, h2, _⟩ :=
    drain_tokens_plain_run (State.init [[[' ', 'a'], [' ', 'b']], [], [[' ', 'c']]] []) 2 h
  refine ⟨h, ⟨c, h1, by simpa [State.init] using h2⟩, ?_⟩
  simp [drain_tokens, State.init, drain_plain, drain_plain_token, fputs, skip_spaces]

/-- C4 (as stated, refuted): the engine returns the empty fragment and then " hi".  The
empty fragment consumes `first_token`, so " hi" is written with its leading space, while
the rule of the claim strips the first non-empty fragment and writes "hi". -/
theorem drain_tokens_plain_empty_first :
    (drain_tokens (State.init [[[], [' ', 'h', 'i']]] [])).out = [' ', 'h', 'i'] ∧
    (drain_tokens (State.init [[[], [' ', 'h', 'i']]] [])).out
      ≠ spec_plain_render [[], [' ', 'h', 'i']] ∧
    (drain_tokens (State.init [[[]]] [])).first_token = false := by
  refine ⟨?_, ?_, ?_⟩
  · simp [drain_tokens, State.init, drain_plain, drain_plain_token, fputs, skip_spaces]
  · simp [drain_tokens, State.init, drain_plain, drain_plain_token, fputs, skip_spaces,
      spec_plain_render]
  · simp [drain_tokens, State.init, drain_plain, drain_plain_token, fputs, skip_spaces]

theorem spec_alt_run_append (f : Bool) (a b : List (List (Option CStr))) :
    spec_alt_run f (a ++ b) =
      spec_alt_run f a ++ spec_alt_run (f && a.all (fun p => (p.getD 0 none).isNone)) b := by
  induction a generalizing f with
  | nil => simp [spec_alt_run]
  | cons p ps ih =>
    simp only [List.cons_append, spec_alt_run, List.all_cons]
    cases h : p.getD 0 none with
    | none => simp [ih]
    | some r0 => simp [ih]

theorem foldl_drain_alt_position_spec (b : List (List (Option CStr))) (st : State) :
    b.foldl (drain_alt_position 3) st =
      { st with first_token := st.first_token && b.all (fun p => (p.getD 0 none).isNone),
                out := st.out ++ spec_alt_run st.first_token b } := by
  induction b generalizing st with
  | nil => simp [spec_alt_run]
  | cons p ps ih =>
    rw [List.foldl_cons, ih]
    cases h : p.getD 0 none with
    | none =>
      have hp : drain_alt_position 3 st p = st := by
        unfold drain_alt_position; rw [h]
      rw [hp]
      simp only [spec_alt_run, List.all_cons, h, Option.isNone_none, Bool.true_and]
    | some r0 =>
      rw [drain_alt_position_spec st p r0 h]
      simp only [spec_alt_run, List.all_cons, h, Option.isNone_some, Bool.false_and,
        Bool.and_false, List.append_assoc]

theorem drain_alt_spec (gs : List (List (List (Option CStr)))) (st : State) :
    ∃ consumed : List (List (List (Option CStr))), gs = consumed ++ (drain_alt gs st).gets_alt ∧
      (drain_alt gs st).out = st.out ++ spec_alt_run st.first_token consumed.flatten ∧
      (drain_alt gs st).first_token =
        (st.first_token && consumed.flatten.all (fun p => (p.getD 0 none).isNone)) := by
  induction gs generalizing st with
  | nil => exact ⟨[], by simp [drain_alt, spec_alt_run]⟩
  | cons b rest ih =>
    unfold drain_alt
    split
    · obtain ⟨c, h1, h2, h3⟩ := ih (b.foldl (drain_alt_position 3) { st with gets_alt := rest })
      refine ⟨b :: c, ?_, ?_, ?_⟩
      · rw [List.cons_append, ← h1]
      · rw [h2, foldl_drain_alt_position_spec, List.flatten_cons, spec_alt_run_append]
        simp [List.append_assoc]
      · rw [h3, foldl_drain_alt_position_spec, List.flatten_cons, List.all_append]
        simp [Bool.and_assoc]
    · have hb : b = [] := by
        cases b with
        | nil => rfl
        | cons x xs => simp at *
      subst hb
      exact ⟨[[]], by simp [spec_alt_run]⟩

/-- C5: in alternative mode (3 slots per position), over any number of `drain_tokens` calls
the output grows by the rendering, in the spec's words, of the positions the engine returned:
a position without rank 0 renders nothing; one with rank 0 only renders as that text; any
other renders as the bracketed, bar-separated candidates up to the first absent rank, so
ranks 0 and 2 without rank 1 give the bracketed rank 0 alone; leading spaces are stripped from
rank 0 of the first rendered position only. -/
theorem drain_tokens_alt_run (st : State) (k : Nat) (h : 0 ≤ st.alt_cutoff) :
    (∃ consumed : List (List (List (Option CStr))),
      st.gets_alt = consumed ++ (drain_tokens^[k] st).gets_alt ∧
      (drain_tokens^[k] st).out = st.out ++ spec_alt_run st.first_token consumed.flatten ∧
      (drain_tokens^[k] st).first_token =
        (st.first_token && consumed.flatten.all (fun p => (p.getD 0 none).isNone))) ∧
    (∀ (s : State) (r0 : CStr), (drain_alt_position 3 s [some r0, none, none]).out =
      s.out ++ (if s.first_token then skip_spaces r0 else r0)) ∧
    (∀ (s : State) (r0 r2 : CStr), (drain_alt_position 3 s [some r0, none, some r2]).out =
      s.out ++ ['['] ++ (if s.first_token then skip_spaces r0 else r0) ++ [']']) ∧
    (∀ (s : State) (r0 r1 : CStr) (r2 : Option CStr),
      (drain_alt_position 3 s [some r0, some r1, r2]).out =
        s.out ++ ['['] ++ (if s.first_token then skip_spaces r0 else r0) ++ ['|'] ++ r1 ++
          (match r2 with
            | some t => '|' :: t
            | none => []) ++ [']']) := by
  refine ⟨?_, ?_, ?_, ?_⟩
  · induction k generalizing st with
    | zero => exact ⟨[], by simp [spec_alt_run]⟩
    | succ k ih =>
      rw [Function.iterate_succ_apply]
      have hd : drain_tokens st = drain_alt st.gets_alt st := by
        unfold drain_tokens; rw [if_neg (F32.not_lt_of_le _ _ h)]
      obtain ⟨c1, a1, a2, a3⟩ := drain_alt_spec st.gets_alt st
      obtain ⟨c2, b1, b2, b3⟩ :=
        ih (drain_tokens st) (by rw [(drain_tokens_calls st).2.2.1]; exact h)
      rw [hd] at b1 b2 b3 ⊢
      refine ⟨c1 ++ c2, ?_, ?_, ?_⟩
      · rw [List.append_assoc, ← b1, ← a1]
      · rw [b2, a2, a3, List.flatten_append, spec_alt_run_append, List.append_assoc]
      · rw [b3, a3, List.flatten_append, List.all_append]
        simp [Bool.and_assoc]
  · intro s r0
    rw [drain_alt_position_spec s [some r0, none, none] r0 rfl]
    cases hf : s.first_token <;> simp [spec_alt_position]
  · intro s r0 r2
    rw [drain_alt_position_spec s [some r0, none, some r2] r0 rfl]
    cases hf : s.first_token <;> simp [spec_alt_position, List.intercalate]
  · intro s r0 r1 r2
    rw [drain_alt_position_spec s [some r0, some r1, r2] r0 rfl]
    cases hf : s.first_token <;> cases r2 <;> simp [spec_alt_position, List.intercalate]

theorem drain_tokens_alt_run_witness :
    (0 : F32) ≤ ({ State.init [] [[[some [' ', 'a'], none, some ['b']]], []] with
        alt_cutoff := 1 } : State).alt_cutoff ∧
    (∃ consumed : List (List (List (Option CStr))),
      [[[some [' ', 'a'], none, some ['b']]], []] = consumed ++
        (drain_tokens^[1] ({ State.init [] [[[some [' ', 'a'], none, some ['b']]], []] with
          alt_cutoff := 1 } : State)).gets_alt ∧
      (drain_tokens^[1] ({ State.init [] [[[some [' ', 'a'], none, some ['b']]], []] with
        alt_cutoff := 1 } : State)).out = spec_alt_run true consumed.flatten) ∧
    (drain_tokens^[1] ({ State.init [] [[[some [' ', 'a'], none, some ['b']]], []] with
      alt_cutoff := 1 } : State)).out = ['[', 'a', ']'] := by
  have h : (0 : F32) ≤ ({ State.init [] [[[some [' ', 'a'], none, some ['b']]], []] with
      alt_cutoff := 1 } : State).alt_cutoff := by
    simp
  obtain ⟨⟨c, h1, h2, _⟩, _⟩ := drain_tokens_alt_run _ 1 h
  refine ⟨h, ⟨c, h1, by simpa [State.init] using h2⟩, ?_⟩
  simp [drain_tokens, drain_alt, drain_alt_position, has_alt, alt_listing, fputs, fputc,
    skip_spaces, State.init, List.range']

/-! ## The chunk bound -/

/-- C9 (amended): a positive feed interval `s` re-derives the chunk bound as the truncation
of the single precision product `s * 16000` clamped to `[160, 16000]`, where the conversion
to `int` is the truncation (the integer part) as long as the rounded product is a number
below 2^31; whatever the conversion yields, the bound lies in `[160, 16000]`; without an
override (`interval` keeps its initial value) the bound stays the default 16000. -/
theorem apply_interval_feed_chunk (ub : F32 → Int) (s : F32) (hs : 0 < s) (st : State) :
    (apply_interval ub s st).feed_chunk = min (max (f2i ub (s.scale 16000)) 160) 16000 ∧
    (∀ q : ℚ, s = F32.num q → s.scale 16000 = f32_round (q * 16000)) ∧
    (∀ y : ℚ, s.scale 16000 = F32.num y → y < 2147483648 → f2i ub (s.scale 16000) = ⌊y⌋) ∧
    160 ≤ (apply_interval ub s st).feed_chunk ∧ (apply_interval ub s st).feed_chunk ≤ 16000 ∧
    (∀ g ga, (apply_interval ub Args.init.interval (State.init g ga)).feed_chunk = 16000) := by
  have h1 : (apply_interval ub s st).feed_chunk =
      min (max (f2i ub (s.scale 16000)) 160) 16000 := by
    unfold apply_interval
    rw [if_pos hs]
    simp only [derive_feed_chunk, VOX_SAMPLE_RATE, DEFAULT_FEED_CHUNK]
    by_cases ha : f2i ub (s.scale 16000) < 160
    · rw [if_pos ha, if_neg (by norm_num)]
      rw [max_eq_right (le_of_lt ha), min_eq_left (by norm_num)]
    · rw [if_neg ha, max_eq_left (not_lt.mp ha)]
      by_cases hb : f2i ub (s.scale 16000) > 16000
      · rw [if_pos hb, min_eq_right (le_of_lt hb)]
      · rw [if_neg hb, min_eq_left (not_lt.mp hb)]
  refine ⟨h1, ?_, ?_, ?_, ?_, ?_⟩
  · intro q hq
    rw [hq]
    rfl
  · intro y hy hlt
    have hy0 : 0 ≤ y := F32.scale_nonneg s 16000 y hs (by norm_num) hy
    rw [hy]
    refine f2i_num ub y ⌊y⌋ hy0 rfl ?_
    have : ⌊y⌋ < 2147483648 := by
      rw [Int.floor_lt]; exact_mod_cast hlt
    omega
  · rw [h1]; exact le_min (le_max_right _ _) (by norm_num)
  · rw [h1]; exact min_le_right _ _
  · intro g ga
    unfold apply_interval
    rw [if_neg (by simp [Args.init])]
    rfl

theorem apply_interval_feed_chunk_witness :
    (0 : F32) < F32.num (1 / 2) ∧
    (apply_interval (fun _ => 0) (F32.num (1 / 2)) (State.init [] [])).feed_chunk = 8000 := by
  have h : (0 : F32) < F32.num (1 / 2) := by simp
  obtain ⟨h1, _, h2, _⟩ :=
    apply_interval_feed_chunk (fun _ => 0) (F32.num (1 / 2)) h (State.init [] [])
  refine ⟨h, ?_⟩
  rw [h1, h2 8000 f32_scale_half (by norm_num)]
  norm_num

/-- C9 (as stated, refuted): two intervals on which the program and `trunc (s * 16000)`
differ.  `-I 0.7` is read as the float 0.7f = 11744051 / 2^24, whose exact product with
16000 is 11199.9998..., truncated 11199; the program multiplies in single precision, where
the product rounds to 11200.  `-I 0.251` is read as the float 4211081 / 2^24, slightly below
0.251: the program derives 4015, while `trunc (0.251 * 16000)` is 4016. -/
theorem feed_chunk_rounded_product :
    f32_round (7 / 10) = F32.num (11744051 / 16777216) ∧
    (0 : F32) < F32.num (11744051 / 16777216) ∧
    (∀ ub : F32 → Int,
      (apply_interval ub (F32.num (11744051 / 16777216)) (State.init [] [])).feed_chunk
        = 11200) ∧
    min (max ⌊(11744051 / 16777216 : ℚ) * 16000⌋ 160) 16000 = 11199 ∧
    f32_round (251 / 1000) = F32.num (4211081 / 16777216) ∧
    (0 : F32) < F32.num (4211081 / 16777216) ∧
    (∀ ub : F32 → Int,
      (apply_interval ub (F32.num (4211081 / 16777216)) (State.init [] [])).feed_chunk
        = 4015) ∧
    min (max ⌊(251 / 1000 : ℚ) * 16000⌋ 160) 16000 = 4016 := by
  refine ⟨?_, by simp, ?_, ?_, ?_, by simp, ?_, ?_⟩
  · rw [f32_round_down (7 / 10) (1 / 16777216) (-1) 11744051 (by norm_num) (by norm_num)
      (by norm_num) (by norm_num) (by norm_num) (by norm_num) (by norm_num) (by norm_num)]
    norm_num
  · intro ub
    have hs : (0 : F32) < F32.num (11744051 / 16777216) := by simp
    unfold apply_interval
    rw [if_pos hs]
    simp only [derive_feed_chunk, VOX_SAMPLE_RATE, DEFAULT_FEED_CHUNK, f32_scale_seven_tenths]
    rw [f2i_num ub 11200 11200 (by norm_num) (by norm_num) (by norm_num)]
    norm_num
  · have h : ⌊(11744051 / 16777216 : ℚ) * 16000⌋ = 11199 := by
      rw [Int.floor_eq_iff]; norm_num
    rw [h]; norm_num
  · rw [f32_round_down (251 / 1000) (1 / 33554432) (-2) 8422162 (by norm_num) (by norm_num)
      (by norm_num) (by norm_num) (by norm_num) (by norm_num) (by norm_num) (by norm_num)]
    norm_num
  · intro ub
    have hs : (0 : F32) < F32.num (4211081 / 16777216) := by simp
    have hsc : (F32.num (4211081 / 16777216)).scale 16000 = F32.num (16449535 / 4096) := by
      have h := f32_round_down (4211081 / 16777216 * 16000) (1 / 4096) 11 16449535
        (by norm_num) (by norm_num) (by norm_num) (by norm_num) (by norm_num) (by norm_num)
        (by norm_num) (by norm_num)
      simp only [F32.scale]
      rw [h]
      norm_num
    unfold apply_interval
    rw [if_pos hs]
    simp only [derive_feed_chunk, VOX_SAMPLE_RATE, DEFAULT_FEED_CHUNK, hsc]
    rw [f2i_num ub (16449535 / 4096) 4015 (by norm_num)
      (by rw [Int.floor_eq_iff]; norm_num) (by norm_num)]
    norm_num
  · have h : ⌊(251 / 1000 : ℚ) * 16000⌋ = 4016 := by
      rw [Int.floor_eq_iff]; norm_num
    rw [h]; norm_num

/-! ## The stdin path -/

theorem read_all_spec :
    ∀ (k capacity size : Nat) (buf rest : List Byte), size ≤ capacity → 0 < capacity →
      rest.length < k →
      read_all k capacity size buf rest = some (buf ++ rest, size + rest.length) := by
  intro k
  induction k with
  | zero => intro _ _ _ _ _ _ h; omega
  | succ k ih =>
    intro capacity size buf rest hsz hcap hk
    unfold read_all
    dsimp only
    by_cases hn : min ((if size = capacity then capacity * 2 else capacity) - size) rest.length = 0
    · rw [if_pos hn]
      have hrest : rest.length = 0 := by
        by_cases hsc : size = capacity
        · rw [if_pos hsc] at hn; omega
        · rw [if_neg hsc] at hn; omega
      have : rest = [] := List.eq_nil_of_length_eq_zero hrest
      subst this
      simp
    · rw [if_neg hn]
      rw [ih _ _ _ _ (by
            by_cases hsc : size = capacity
            · rw [if_pos hsc]; omega
            · rw [if_neg hsc]; omega)
          (by split <;> omega)
          (by rw [List.length_drop]; omega)]
      simp only [List.append_assoc, List.take_append_drop, List.length_drop, Option.some.injEq,
        Prod.mk.injEq, true_and]
      omega

theorem s16_items_take_drop (n : Nat) :
    ∀ l : List Byte, s16_items (l.take (2 * n)) ++ s16_items (l.drop (2 * n)) = s16_items l := by
  induction n with
  | zero => intro l; simp [s16_items]
  | succ n ih =>
    intro l
    match l with
    | [] => simp [s16_items]
    | [a] => simp [s16_items]
    | a :: b :: l =>
      have h2 : 2 * (n + 1) = 2 * n + 1 + 1 := by ring
      rw [h2]
      simp only [List.take_succ_cons, List.drop_succ_cons, s16_items, List.cons_append]
      rw [ih l]

theorem s16_items_length : ∀ l : List Byte, (s16_items l).length = l.length / 2
  | [] => by simp [s16_items]
  | [_] => by simp [s16_items]
  | _ :: _ :: l => by
    simp only [s16_items, List.length_cons, s16_items_length l]
    omega

theorem s16_items_append_even (n : Nat) (a b : List Byte) (ha : a.length = 2 * n) :
    s16_items (a ++ b) = s16_items a ++ s16_items b := by
  have h := s16_items_take_drop n (a ++ b)
  rw [List.take_append_of_le_length (by omega), List.drop_append_of_le_length (by omega)] at h
  rw [← h, List.take_of_length_le (by omega), List.drop_of_length_le (by omega)]
  simp [s16_items]

theorem s16le_range (lo hi : Byte) : -32768 ≤ s16le lo hi ∧ s16le lo hi < 32768 := by
  have h1 := lo.isLt
  have h2 := hi.isLt
  unfold s16le
  dsimp only
  split <;> omega

theorem s16_items_range : ∀ (l : List Byte) (x : Int), x ∈ s16_items l → -32768 ≤ x ∧ x < 32768
  | [], x, h => by simp [s16_items] at h
  | [_], x, h => by simp [s16_items] at h
  | lo :: hi :: l, x, h => by
    simp only [s16_items, List.mem_cons] at h
    rcases h with rfl | h
    · exact s16le_range lo hi
    · exact s16_items_range l x h

theorem to_float_range (x : Int) (h : -32768 ≤ x ∧ x < 32768) :
    -1 ≤ to_float x ∧ to_float x < 1 := by
  unfold to_float
  have h1 : (-32768 : ℚ) ≤ (x : ℚ) := by exact_mod_cast h.1
  have h2 : (x : ℚ) < 32768 := by exact_mod_cast h.2
  constructor
  · rw [le_div_iff₀ (by norm_num)]; linarith
  · rw [div_lt_iff₀ (by norm_num)]; linarith

theorem raw_loop_spec :
    ∀ (k : Nat) (rest : List Byte) (st : State), rest.length / 2 < k →
      ∃ (st1 : State) (chunks : List (List Sample)),
        raw_loop k rest st = some st1 ∧
        st1.calls = st.calls ++ chunks.map Call.vox_stream_feed ∧
        st1.feed_chunk = st.feed_chunk ∧
        chunks.flatten = (s16_items rest).map to_float ∧
        (∀ c ∈ chunks, 1 ≤ c.length ∧ c.length ≤ 4096) ∧
        chunks.length = (rest.length / 2 + 4096 - 1) / 4096 := by
  intro k
  induction k with
  | zero => intro _ _ h; omega
  | succ k ih =>
    intro rest st hk
    unfold raw_loop
    dsimp only
    by_cases hn : min 4096 (rest.length / 2) = 0
    · rw [if_pos hn]
      have hlen : (s16_items rest).length = 0 := by rw [s16_items_length]; omega
      refine ⟨st, [], rfl, by simp, rfl, ?_, by simp, ?_⟩
      · rw [List.eq_nil_of_length_eq_zero hlen]; rfl
      · have : rest.length / 2 = 0 := by omega
        rw [this]; rfl
    · rw [if_neg hn]
      set nread := min 4096 (rest.length / 2) with hnread
      have hlen : (s16_items (rest.take (2 * nread))).length = nread := by
        rw [s16_items_length, List.length_take]; omega
      have hchunk : (((s16_items (rest.take (2 * nread))).map to_float).drop
          (0 : Int).toNat).take (nread : Int).toNat
          = (s16_items (rest.take (2 * nread))).map to_float := by
        simp only [Int.toNat_zero, List.drop_zero, Int.toNat_ofNat]
        apply List.take_of_length_le
        simp [hlen]
      obtain ⟨g1, g2, _, _⟩ := drain_tokens_calls
        (vox_stream_feed st ((s16_items (rest.take (2 * nread))).map to_float) 0 (nread : Int))
      obtain ⟨st1, chunks, h1, h2, h3, h4, h5, h6⟩ :=
        ih (rest.drop (2 * nread))
          (drain_tokens (vox_stream_feed st
            ((s16_items (rest.take (2 * nread))).map to_float) 0 (nread : Int)))
          (by rw [List.length_drop]; omega)
      refine ⟨st1, ((s16_items (rest.take (2 * nread))).map to_float) :: chunks, h1, ?_, ?_, ?_, ?_,
        ?_⟩
      · rw [h2, g1]
        simp only [vox_stream_feed, hchunk, List.map_cons, List.append_assoc, List.singleton_append]
      · rw [h3, g2]; rfl
      · rw [List.flatten_cons, h4, ← List.map_append, s16_items_take_drop]
      · intro c hc
        rcases List.mem_cons.mp hc with rfl | hc
        · rw [List.length_map, hlen]; omega
        · exact h5 c hc
      · rw [List.length_cons, h6, List.length_drop]
        by_cases hbig : 4096 < rest.length / 2
        · rw [ceil_div_step (rest.length / 2) 4096 (by norm_num) hbig]
          have hn4 : nread = 4096 := by omega
          have e : (rest.length - 2 * nread) / 2 = rest.length / 2 - 4096 := by omega
          rw [e]
        · rw [ceil_div_small (rest.length / 2) 4096 (by omega) (by omega)]
          have : (rest.length - 2 * nread) / 2 = 0 := by omega
          rw [this]

theorem s16_items_four (hdr : List Byte) (h : hdr.length = 4) :
    s16_items hdr = [s16le (hdr.getD 0 0) (hdr.getD 1 0), s16le (hdr.getD 2 0) (hdr.getD 3 0)] := by
  match hdr, h with
  | [a, b, c, d], _ => simp [s16_items]

theorem stdin_raw_spec (env : Env) (st : State) (h4 : 4 ≤ env.stdin.length)
    (hr : env.stdin.take 4 ≠ RIFF) :
    ∃ (st1 : State) (first : List Sample) (more : List (List Sample)),
      stdin_source env st = some (true, st1) ∧
      st1.calls = st.calls ++ (first :: more).map Call.vox_stream_feed ∧
      st1.feed_chunk = st.feed_chunk ∧
      first = [to_float (s16le (env.stdin.getD 0 0) (env.stdin.getD 1 0)),
               to_float (s16le (env.stdin.getD 2 0) (env.stdin.getD 3 0))] ∧
      (first :: more).flatten = (s16_items env.stdin).map to_float ∧
      (∀ c ∈ more, 1 ≤ c.length ∧ c.length ≤ 4096) ∧
      more.length = ((env.stdin.length - 4) / 2 + 4096 - 1) / 4096 := by
  have hlen : (env.stdin.take 4).length = 4 := by rw [List.length_take]; omega
  have hsv := s16_items_four (env.stdin.take 4) hlen
  have hg : ∀ i, i < 4 → (env.stdin.take 4).getD i 0 = env.stdin.getD i 0 := by
    intro i hi
    simp only [List.getD_eq_getElem?_getD, List.getElem?_take, if_pos hi]
  rw [hg 0 (by norm_num), hg 1 (by norm_num), hg 2 (by norm_num), hg 3 (by norm_num)] at hsv
  unfold stdin_source
  dsimp only
  rw [if_neg (by omega), if_neg hr, hsv]
  simp only [List.getD_cons_zero, List.getD_cons_succ]
  set f : List Sample := [to_float (s16le (env.stdin.getD 0 0) (env.stdin.getD 1 0)),
    to_float (s16le (env.stdin.getD 2 0) (env.stdin.getD 3 0))] with hf
  obtain ⟨g1, g2, _, _⟩ := drain_tokens_calls (vox_stream_feed st f 0 2)
  obtain ⟨st1, chunks, h1, h2, h3, h4', h5, h6⟩ :=
    raw_loop_spec ((env.stdin.drop 4).length / 2 + 1) (env.stdin.drop 4)
      (drain_tokens (vox_stream_feed st f 0 2)) (Nat.lt_succ_self _)
  rw [h1]
  refine ⟨st1, f, chunks, rfl, ?_, ?_, rfl, ?_, h5, by rw [h6, List.length_drop]⟩
  · rw [h2, g1]
    simp [vox_stream_feed, hf]
  · rw [h3, g2]; rfl
  · rw [List.flatten_cons, h4']
    have hsplit := s16_items_append_even 2 (env.stdin.take 4) (env.stdin.drop 4) hlen
    rw [List.take_append_drop] at hsplit
    rw [hsplit, hsv, List.map_append]
    rfl

theorem s16_items_getElem :
    ∀ (i : Nat) (l : List Byte), 2 * i + 1 < l.length →
      (s16_items l)[i]? = some (s16le (l.getD (2 * i) 0) (l.getD (2 * i + 1) 0)) := by
  intro i
  induction i with
  | zero =>
    intro l h
    match l, h with
    | a :: b :: l, _ => simp [s16_items]
  | succ i ih =>
    intro l h
    match l, h with
    | a :: b :: l, h =>
      have h2 : 2 * (i + 1) = 2 * i + 1 + 1 := by ring
      simp only [s16_items, List.getElem?_cons_succ, h2, List.getD_cons_succ]
      exact ih l (by simp only [List.length_cons] at h; omega)

/-- C7: on the raw stdin path (at least 4 bytes, not starting with the marker) the samples
fed to the engine, concatenated in feed order, are the `⌊L/2⌋` consecutive little-endian
signed 16 bit values of the stream, each divided by 32768; the first feed carries the 2
samples of the 4 peeked bytes, every later feed at least 1 and at most 4096 samples, and
every fed sample lies in `[-1, 1)`. -/
theorem stdin_raw_samples (env : Env) (st : State) (h4 : 4 ≤ env.stdin.length)
    (hr : env.stdin.take 4 ≠ RIFF) :
    ∃ (st1 : State) (first : List Sample) (more : List (List Sample)),
      stdin_source env st = some (true, st1) ∧
      st1.calls = st.calls ++ (first :: more).map Call.vox_stream_feed ∧
      first = [to_float (s16le (env.stdin.getD 0 0) (env.stdin.getD 1 0)),
               to_float (s16le (env.stdin.getD 2 0) (env.stdin.getD 3 0))] ∧
      (first :: more).flatten = (s16_items env.stdin).map to_float ∧
      (s16_items env.stdin).length = env.stdin.length / 2 ∧
      (∀ i, 2 * i + 1 < env.stdin.length → (s16_items env.stdin)[i]? =
        some (s16le (env.stdin.getD (2 * i) 0) (env.stdin.getD (2 * i + 1) 0))) ∧
      (∀ c ∈ more, 1 ≤ c.length ∧ c.length ≤ 4096) ∧
      (∀ x ∈ (first :: more).flatten, -1 ≤ x ∧ x < 1) := by
  obtain ⟨st1, first, more, h1, h2, _, h3, h5, h6, _⟩ := stdin_raw_spec env st h4 hr
  refine ⟨st1, first, more, h1, h2, h3, h5, s16_items_length _,
    fun i hi => s16_items_getElem i _ hi, h6, ?_⟩
  intro x hx
  rw [h5, List.mem_map] at hx
  obtain ⟨y, hy, rfl⟩ := hx
  exact to_float_range y (s16_items_range _ y hy)

theorem stdin_raw_samples_witness :
    4 ≤ (example_env [0, 0, 0, 64, 0, 128, 7] 0 none).stdin.length ∧
    (example_env [0, 0, 0, 64, 0, 128, 7] 0 none).stdin.take 4 ≠ RIFF ∧
    ∃ (st1 : State) (chunks : List (List Sample)),
      stdin_source (example_env [0, 0, 0, 64, 0, 128, 7] 0 none) (State.init [] [])
        = some (true, st1) ∧
      st1.calls = chunks.map Call.vox_stream_feed ∧
      chunks.flatten = [0, 1 / 2, -1] := by
  have h4 : 4 ≤ (example_env [0, 0, 0, 64, 0, 128, 7] 0 none).stdin.length := by
    simp [example_env]
  have hr : (example_env [0, 0, 0, 64, 0, 128, 7] 0 none).stdin.take 4 ≠ RIFF := by
    simp [example_env, RIFF]
  obtain ⟨st1, first, more, h1, h2, _, h5, _⟩ :=
    stdin_raw_samples (example_env [0, 0, 0, 64, 0, 128, 7] 0 none) (State.init [] []) h4 hr
  refine ⟨h4, hr, st1, first :: more, h1, by simpa [State.init] using h2, ?_⟩
  have e1 : s16le 0 0 = 0 := by decide
  have e2 : s16le 0 64 = 16384 := by decide
  have e3 : s16le 0 128 = -32768 := by decide
  rw [h5]
  simp only [example_env, s16_items, List.map_cons, List.map_nil, e1, e2, e3, to_float]
  norm_num

theorem fed_chunks_append (a b : List Call) :
    fed_chunks (a ++ b) = fed_chunks a ++ fed_chunks b := by
  induction a with
  | nil => rfl
  | cons c cs ih => cases c <;> simp [fed_chunks, ih]

theorem fed_chunks_map_feed (cs : List (List Sample)) :
    fed_chunks (cs.map Call.vox_stream_feed) = cs := by
  induction cs with
  | nil => rfl
  | cons c cs ih => simp [fed_chunks, ih]

theorem apply_interval_fed (ub : F32 → Int) (q : F32) (st : State) :
    fed_chunks (apply_interval ub q st).calls = fed_chunks st.calls := by
  unfold apply_interval
  split
  · simp [State.call, fed_chunks_append, fed_chunks]
  · rfl

theorem stdin_wav_spec (env : Env) (st : State) (hr : env.stdin.take 4 = RIFF) :
    (env.vox_parse_wav_buffer env.stdin = none →
      stdin_source env st = some (false, st.call (Call.vox_parse_wav_buffer env.stdin))) ∧
    (∀ samples, env.vox_parse_wav_buffer env.stdin = some samples →
      stdin_source env st =
        (feed_and_drain (samples.length + 1) (st.call (Call.vox_parse_wav_buffer env.stdin))
          samples samples.length).map (fun s => (true, s))) := by
  have hlen : (env.stdin.take 4).length = 4 := by rw [hr]; rfl
  have hread := read_all_spec ((env.stdin.drop 4).length + 1) (1024 * 1024) 4
    (env.stdin.take 4) (env.stdin.drop 4) (by norm_num) (by norm_num) (Nat.lt_succ_self _)
  rw [List.take_append_drop] at hread
  have hsize : 4 + (env.stdin.drop 4).length = env.stdin.length := by
    rw [List.length_take] at hlen
    rw [List.length_drop]; omega
  have htake : env.stdin.take (4 + (env.stdin.drop 4).length) = env.stdin := by
    rw [hsize]; exact List.take_of_length_le (le_refl _)
  constructor
  · intro hp
    unfold stdin_source
    dsimp only
    rw [if_neg (by omega), if_pos hr, hread]
    simp only [htake, hp]
  · intro samples hp
    unfold stdin_source
    dsimp only
    rw [if_neg (by omega), if_pos hr, hread]
    simp only [htake, hp]
    cases feed_and_drain (samples.length + 1)
      (st.call (Call.vox_parse_wav_buffer env.stdin)) samples samples.length <;> rfl

/-- C6: the stdin path classifies a stream by its first 4 bytes alone.  Fewer than 4 bytes:
the branch takes its failure return with the state untouched, and `main` exits with code 1
without any feed call.  First 4 bytes equal to the marker: the WAV parser is called on the
whole stream, marker included, and its samples (if any) go through `feed_and_drain`.  Any
other stream of at least 4 bytes: raw streaming, the engine being fed the stream's 16 bit
samples and the parser not being called. -/
theorem stdin_classification (env : Env) (mic : MicPlatform) (a : Args) (st : State) :
    (env.stdin.length < 4 →
      stdin_source env st = some (false, st) ∧
      (a.use_mic = 0 → a.use_stdin ≠ 0 →
        ∃ st1, main_run env mic a st = some (1, st1) ∧
          fed_chunks st1.calls = fed_chunks st.calls)) ∧
    (env.stdin.take 4 = RIFF →
      (env.vox_parse_wav_buffer env.stdin = none →
        stdin_source env st = some (false, st.call (Call.vox_parse_wav_buffer env.stdin))) ∧
      (∀ samples, env.vox_parse_wav_buffer env.stdin = some samples → 1 ≤ st.feed_chunk →
        ∃ (st1 : State) (chunks : List (List Sample)),
          stdin_source env st = some (true, st1) ∧
          st1.calls = st.calls ++ [Call.vox_parse_wav_buffer env.stdin]
            ++ chunks.map Call.vox_stream_feed ∧
          chunks.flatten = samples)) ∧
    (4 ≤ env.stdin.length → env.stdin.take 4 ≠ RIFF →
      ∃ (st1 : State) (chunks : List (List Sample)),
        stdin_source env st = some (true, st1) ∧
        st1.calls = st.calls ++ chunks.map Call.vox_stream_feed ∧
        chunks.flatten = (s16_items env.stdin).map to_float) := by
  refine ⟨?_, ?_, ?_⟩
  · intro hshort
    have hsrc : ∀ s : State, stdin_source env s = some (false, s) := by
      intro s
      unfold stdin_source
      dsimp only
      rw [if_pos (by rw [List.length_take]; omega)]
    refine ⟨hsrc st, ?_⟩
    intro hmic hstdin
    unfold main_run
    dsimp only
    by_cases hl : env.load_ok = true
    · by_cases hs : env.stream_ok = true
      · simp only [hl, hs, not_true_eq_false, if_false, hmic, ne_eq, hstdin, not_false_eq_true,
          if_true, hsrc]
        refine ⟨_, rfl, ?_⟩
        simp only [State.call, fed_chunks_append, apply_interval_fed]
        split <;> simp [fed_chunks, fed_chunks_append]
      · simp only [hl, hs, not_true_eq_false, if_false, not_false_eq_true, if_true]
        exact ⟨_, rfl, by simp [State.call, fed_chunks_append, fed_chunks]⟩
    · simp only [hl, not_false_eq_true, if_true]
      exact ⟨_, rfl, by simp [State.call, fed_chunks_append, fed_chunks]⟩
  · intro hr
    obtain ⟨hn, hs⟩ := stdin_wav_spec env st hr
    refine ⟨hn, ?_⟩
    intro samples hp hB
    rw [hs samples hp]
    obtain ⟨st1, chunks, h1, h2, h3, _, _⟩ :=
      feed_and_drain_slices (st.call (Call.vox_parse_wav_buffer env.stdin)) samples
        (samples.length + 1) hB (Nat.lt_succ_self _)
    exact ⟨st1, chunks, by rw [h1]; rfl, by rw [h2]; simp [State.call], h3⟩
  · intro h4 hr
    obtain ⟨st1, first, more, h1, h2, _, _, h5, _, _⟩ := stdin_raw_spec env st h4 hr
    exact ⟨st1, first :: more, h1, h2, h5⟩

/-! ## Argument validation -/

theorem parse_args_cons (env : Env) (arg : String) (rest : List String) (a : Args) (st : State) :
    parse_args env (arg :: rest) a st =
      match parse_arg env arg rest.head? a st, rest with
      | .ret code st1, _ => .inl (code, st1)
      | .next true a1 st1, _ :: rest2 => parse_args env rest2 a1 st1
      | .next _ a1 st1, rest1 => parse_args env rest1 a1 st1 := by
  conv_lhs => unfold parse_args

theorem parse_args_opt (env : Env) (o : Opt) (rest : List String) (a : Args) (st : State) :
    parse_args env (o.argv ++ rest) a st =
      match o with
      | .d dir => parse_args env rest { a with model_dir := some dir } st
      | .i file => parse_args env rest { a with input_wav := some file } st
      | .I secs =>
        if env.atof secs ≤ 0 then .inl (1, st)
        else parse_args env rest { a with interval := env.atof secs } st
      | .alt cutoff =>
        if env.atof cutoff < 0 ∨ env.atof cutoff > 1 then
          .inl (1, { st with alt_cutoff := env.atof cutoff })
        else parse_args env rest a { st with alt_cutoff := env.atof cutoff }
      | .stdin => parse_args env rest { a with use_stdin := 1 } st
      | .mic => parse_args env rest { a with use_mic := 1 } st
      | .mic_secs secs =>
        if env.atof secs ≤ 0 then .inl (1, st)
        else parse_args env rest { a with mic_seconds := env.atof secs } st
      | .debug => parse_args env rest { a with verbosity := 2 } st
      | .silent => parse_args env rest { a with verbosity := 0 } st := by
  cases o with
  | d dir => simp [Opt.argv, parse_args_cons, parse_arg]
  | i file => simp [Opt.argv, parse_args_cons, parse_arg]
  | I secs =>
    by_cases h : env.atof secs ≤ 0 <;> simp [Opt.argv, parse_args_cons, parse_arg, h]
  | alt cutoff =>
    by_cases h : env.atof cutoff < 0 ∨ env.atof cutoff > 1 <;>
      simp [Opt.argv, parse_args_cons, parse_arg, h]
  | stdin => cases rest <;> simp [Opt.argv, parse_args_cons, parse_arg]
  | mic => cases rest <;> simp [Opt.argv, parse_args_cons, parse_arg]
  | mic_secs secs =>
    by_cases h : env.atof secs ≤ 0 <;> simp [Opt.argv, parse_args_cons, parse_arg, h]
  | debug => cases rest <;> simp [Opt.argv, parse_args_cons, parse_arg]
  | silent => cases rest <;> simp [Opt.argv, parse_args_cons, parse_arg]

theorem parse_render_opts (env : Env) :
    ∀ (opts : List Opt) (a : Args) (st : State), opts.any (Opt.is_nan env) = false →
      (opts.any (Opt.out_of_range env) = true →
        ∃ st1, parse_args env (render_opts opts) a st = .inl (1, st1) ∧ st1.calls = st.calls) ∧
      (opts.any (Opt.out_of_range env) = false →
        ∃ a1 st1, parse_args env (render_opts opts) a st = .inr (a1, st1) ∧
          st1.calls = st.calls ∧
          a1.model_dir.isSome = (a.model_dir.isSome || opts.any Opt.is_d) ∧
          a1.input_wav.isSome = (a.input_wav.isSome || opts.any Opt.is_i) ∧
          a1.use_stdin = (if opts.any (fun o => o == Opt.stdin) then 1 else a.use_stdin) ∧
          a1.use_mic = (if opts.any (fun o => o == Opt.mic) then 1 else a.use_mic) ∧
          (0 < a1.mic_seconds ↔ (0 < a.mic_seconds ∨ opts.any Opt.is_mic_secs = true))) := by
  intro opts
  induction opts with
  | nil =>
    intro a st _
    refine ⟨by simp, fun _ => ⟨a, st, ?_⟩⟩
    simp [render_opts, parse_args]
  | cons o os ih =>
    intro a st hnum
    rw [List.any_cons, Bool.or_eq_false_iff] at hnum
    obtain ⟨hn, hns⟩ := hnum
    simp only [render_opts]
    rw [parse_args_opt]
    cases o with
    | d dir =>
      have := ih { a with model_dir := some dir } st hns
      simpa [Opt.out_of_range, Opt.is_d, Opt.is_i, Opt.is_mic_secs] using this
    | i file =>
      have := ih { a with input_wav := some file } st hns
      simpa [Opt.out_of_range, Opt.is_d, Opt.is_i, Opt.is_mic_secs] using this
    | I secs =>
      have hv : env.atof secs ≠ F32.nan := by simpa [Opt.is_nan] using hn
      have hiff := F32.not_pos_iff (env.atof secs) hv
      by_cases h : env.atof secs ≤ 0
      · have hnp : ¬ 0 < env.atof secs := hiff.mpr h
        simp only [List.any_cons, Opt.out_of_range, hnp, not_false_eq_true, decide_True,
          Bool.true_or, if_pos h, forall_true_left]
        exact ⟨⟨st, rfl, rfl⟩, fun hc => absurd hc (by simp)⟩
      · have hpos : 0 < env.atof secs := not_not.mp (fun hc => h (hiff.mp hc))
        have := ih { a with interval := env.atof secs } st hns
        simp only [List.any_cons, Opt.out_of_range, hpos, not_true_eq_false, decide_False,
          Bool.false_or, if_neg h, Opt.is_d, Opt.is_i, Opt.is_mic_secs]
        simpa using this
    | alt cutoff =>
      have hv : env.atof cutoff ≠ F32.nan := by simpa [Opt.is_nan] using hn
      have hiff := F32.outside_iff (env.atof cutoff) hv
      by_cases h : env.atof cutoff < 0 ∨ env.atof cutoff > 1
      · have hnp : ¬ (0 ≤ env.atof cutoff ∧ env.atof cutoff ≤ 1) := hiff.mpr h
        simp only [List.any_cons, Opt.out_of_range, hnp, not_false_eq_true, decide_True,
          Bool.true_or, if_pos h, forall_true_left]
        exact ⟨⟨_, rfl, rfl⟩, fun hc => absurd hc (by simp)⟩
      · have hin : 0 ≤ env.atof cutoff ∧ env.atof cutoff ≤ 1 :=
          not_not.mp (fun hc => h (hiff.mp hc))
        have := ih a { st with alt_cutoff := env.atof cutoff } hns
        simp only [List.any_cons, Opt.out_of_range, hin, and_self, not_true_eq_false,
          decide_False, Bool.false_or, if_neg h, Opt.is_d, Opt.is_i, Opt.is_mic_secs]
        simpa using this
    | stdin =>
      have := ih { a with use_stdin := 1 } st hns
      simp only [Opt.out_of_range, Opt.is_d, Opt.is_i, Opt.is_mic_secs, List.any_cons,
        Bool.false_or, beq_self_eq_true, Bool.true_or, if_true] at this ⊢
      obtain ⟨h1, h2⟩ := this
      refine ⟨h1, fun hb => ?_⟩
      obtain ⟨a1, st1, e1, e2, e3, e4, e5, e6, e7⟩ := h2 hb
      refine ⟨a1, st1, e1, e2, e3, e4, ?_, ?_, e7⟩
      · rw [e5]; split <;> rfl
      · rw [e6]; simp
    | mic =>
      have := ih { a with use_mic := 1 } st hns
      simp only [Opt.out_of_range, Opt.is_d, Opt.is_i, Opt.is_mic_secs, List.any_cons,
        Bool.false_or, beq_self_eq_true, Bool.true_or, if_true] at this ⊢
      obtain ⟨h1, h2⟩ := this
      refine ⟨h1, fun hb => ?_⟩
      obtain ⟨a1, st1, e1, e2, e3, e4, e5, e6, e7⟩ := h2 hb
      refine ⟨a1, st1, e1, e2, e3, e4, ?_, ?_, e7⟩
      · rw [e5]; simp
      · rw [e6]; split <;> rfl
    | mic_secs secs =>
      have hv : env.atof secs ≠ F32.nan := by simpa [Opt.is_nan] using hn
      have hiff := F32.not_pos_iff (env.atof secs) hv
      by_cases h : env.atof secs ≤ 0
      · have hnp : ¬ 0 < env.atof secs := hiff.mpr h
        simp only [List.any_cons, Opt.out_of_range, hnp, not_false_eq_true, decide_True,
          Bool.true_or, if_pos h, forall_true_left]
        exact ⟨⟨st, rfl, rfl⟩, fun hc => absurd hc (by simp)⟩
      · have hpos : 0 < env.atof secs := not_not.mp (fun hc => h (hiff.mp hc))
        have := ih { a with mic_seconds := env.atof secs } st hns
        simp only [List.any_cons, Opt.out_of_range, hpos, not_true_eq_false, decide_False,
          Bool.false_or, if_neg h, Opt.is_d, Opt.is_i, Opt.is_mic_secs, Bool.true_or, or_true]
        simpa [hpos] using this
    | debug =>
      have := ih { a with verbosity := 2 } st hns
      simpa [Opt.out_of_range, Opt.is_d, Opt.is_i, Opt.is_mic_secs] using this
    | silent =>
      have := ih { a with verbosity := 0 } st hns
      simpa [Opt.out_of_range, Opt.is_d, Opt.is_i, Opt.is_mic_secs] using this

theorem invalid_combination_eq (a1 : Args) (D I S M K : Bool)
    (e3 : a1.model_dir.isSome = D) (e4 : a1.input_wav.isSome = I)
    (e5 : a1.use_stdin = if S then 1 else 0) (e6 : a1.use_mic = if M then 1 else 0)
    (e7 : 0 < a1.mic_seconds ↔ K = true) :
    invalid_combination a1 =
      (!D || ((if I then 1 else 0) + (if S then 1 else 0) + (if M then 1 else 0) : Nat) == 0
        || decide (((if I then 1 else 0) + (if S then 1 else 0) + (if M then 1 else 0) : Nat) > 1)
        || (K && !M)) := by
  unfold invalid_combination
  have hK : decide (a1.mic_seconds > 0) = K := by
    cases K with
    | true => exact decide_eq_true (e7.mpr rfl)
    | false =>
      apply decide_eq_false
      intro h
      exact Bool.noConfusion (e7.mp h)
  rw [hK, e5, e6]
  cases hm : a1.model_dir <;> cases hi : a1.input_wav <;>
    simp only [hm, hi, Option.isSome_none, Option.isSome_some] at e3 e4 <;>
    subst e3 <;> subst e4 <;> cases S <;> cases M <;> cases K <;> simp

theorem parse_arg_cases (env : Env) (arg : String) (value : Option String) (a : Args)
    (st : State) :
    (∃ st1, parse_arg env arg value a st = .ret 1 st1 ∧ st1.calls = st.calls) ∨
    (parse_arg env arg value a st = .ret 0 st ∧ (arg = "-h" ∨ arg = "--help")) ∨
    (∃ tv a1 st1, parse_arg env arg value a st = .next tv a1 st1 ∧ st1.calls = st.calls) := by
  unfold parse_arg
  dsimp only
  by_cases c1 : arg = "-d" ∧ value.isSome = true
  · rw [if_pos c1]; exact Or.inr (Or.inr ⟨_, _, _, rfl, rfl⟩)
  rw [if_neg c1]
  by_cases c2 : arg = "-i" ∧ value.isSome = true
  · rw [if_pos c2]; exact Or.inr (Or.inr ⟨_, _, _, rfl, rfl⟩)
  rw [if_neg c2]
  by_cases c3 : arg = "-I" ∧ value.isSome = true
  · rw [if_pos c3]
    by_cases d : env.atof (value.getD "") ≤ 0
    · rw [if_pos d]; exact Or.inl ⟨_, rfl, rfl⟩
    · rw [if_neg d]; exact Or.inr (Or.inr ⟨_, _, _, rfl, rfl⟩)
  rw [if_neg c3]
  by_cases c4 : arg = "--alt" ∧ value.isSome = true
  · rw [if_pos c4]
    by_cases d : env.atof (value.getD "") < 0 ∨ env.atof (value.getD "") > 1
    · rw [if_pos d]; exact Or.inl ⟨_, rfl, rfl⟩
    · rw [if_neg d]; exact Or.inr (Or.inr ⟨_, _, _, rfl, rfl⟩)
  rw [if_neg c4]
  by_cases c5 : arg = "--stdin"
  · rw [if_pos c5]; exact Or.inr (Or.inr ⟨_, _, _, rfl, rfl⟩)
  rw [if_neg c5]
  by_cases c6 : arg = "--mic"
  · rw [if_pos c6]; exact Or.inr (Or.inr ⟨_, _, _, rfl, rfl⟩)
  rw [if_neg c6]
  by_cases c7 : arg = "--mic-secs" ∧ value.isSome = true
  · rw [if_pos c7]
    by_cases d : env.atof (value.getD "") ≤ 0
    · rw [if_pos d]; exact Or.inl ⟨_, rfl, rfl⟩
    · rw [if_neg d]; exact Or.inr (Or.inr ⟨_, _, _, rfl, rfl⟩)
  rw [if_neg c7]
  by_cases c8 : arg = "--debug"
  · rw [if_pos c8]; exact Or.inr (Or.inr ⟨_, _, _, rfl, rfl⟩)
  rw [if_neg c8]
  by_cases c9 : arg = "--silent"
  · rw [if_pos c9]; exact Or.inr (Or.inr ⟨_, _, _, rfl, rfl⟩)
  rw [if_neg c9]
  by_cases c10 : arg = "-h" ∨ arg = "--help"
  · rw [if_pos c10]; exact Or.inr (Or.inl ⟨rfl, c10⟩)
  rw [if_neg c10]
  exact Or.inl ⟨_, rfl, rfl⟩

theorem parse_args_general (env : Env) :
    ∀ (n : Nat) (l : List String) (a : Args) (st : State), l.length ≤ n →
      (∃ code st1, parse_args env l a st = .inl (code, st1) ∧ st1.calls = st.calls ∧
        (code = 1 ∨ (code = 0 ∧ ("-h" ∈ l ∨ "--help" ∈ l)))) ∨
      (∃ a1 st1, parse_args env l a st = .inr (a1, st1) ∧ st1.calls = st.calls) := by
  intro n
  induction n with
  | zero =>
    intro l a st hl
    have : l = [] := List.eq_nil_of_length_eq_zero (by omega)
    subst this
    exact Or.inr ⟨a, st, by simp [parse_args], rfl⟩
  | succ n ih =>
    intro l a st hl
    match l, hl with
    | [], _ => exact Or.inr ⟨a, st, by simp [parse_args], rfl⟩
    | arg :: rest, hl =>
      have hrest : rest.length ≤ n := by simpa using hl
      rw [parse_args_cons]
      rcases parse_arg_cases env arg rest.head? a st with ⟨st1, h1, h2⟩ | ⟨h1, h2⟩ |
          ⟨tv, a1, st1, h1, h2⟩
      · rw [h1]
        exact Or.inl ⟨1, st1, rfl, h2, Or.inl rfl⟩
      · rw [h1]
        refine Or.inl ⟨0, st, rfl, rfl, Or.inr ⟨rfl, ?_⟩⟩
        rcases h2 with h | h
        · exact Or.inl (by rw [h]; exact List.mem_cons_self _ _)
        · exact Or.inr (by rw [h]; exact List.mem_cons_self _ _)
      · rw [h1]
        have step : ∀ l2 : List String, l2.length ≤ n → (∀ x, x ∈ l2 → x ∈ arg :: rest) →
            ((∃ code st2, parse_args env l2 a1 st1 = .inl (code, st2) ∧ st2.calls = st.calls ∧
              (code = 1 ∨ (code = 0 ∧ ("-h" ∈ arg :: rest ∨ "--help" ∈ arg :: rest)))) ∨
            (∃ a2 st2, parse_args env l2 a1 st1 = .inr (a2, st2) ∧ st2.calls = st.calls)) := by
          intro l2 hl2 hsub
          rcases ih l2 a1 st1 hl2 with ⟨code, st2, e1, e2, e3⟩ | ⟨a2, st2, e1, e2⟩
          · refine Or.inl ⟨code, st2, e1, e2.trans h2, ?_⟩
            rcases e3 with e3 | ⟨e3, e4⟩
            · exact Or.inl e3
            · exact Or.inr ⟨e3, e4.imp (hsub _) (hsub _)⟩
          · exact Or.inr ⟨a2, st2, e1, e2.trans h2⟩
        cases tv with
        | false =>
          exact step rest hrest (fun x hx => List.mem_cons_of_mem _ hx)
        | true =>
          match rest, hrest with
          | [], _ => exact step [] (Nat.zero_le _) (fun x hx => by simp at hx)
          | v :: rest2, hrest =>
            exact step rest2 (by simp only [List.length_cons] at hrest; omega)
              (fun x hx => List.mem_cons_of_mem _ (List.mem_cons_of_mem _ hx))

/-- Validation when no option value is NaN: for an argument vector spelling a list of
options (none of them help), `main` returns 1 without having called `vox_load`,
`vox_stream_init`, the capture routine or anything else, whenever no model directory or no
source is given, more than one source is given, `--mic-secs` comes without `--mic`, or a
value of `-I`, `--mic-secs` or `--alt` is out of range; every other such vector passes the
checks and `main` goes on with the parsed locals, model directory set.  The last part holds
for every argument vector, NaN or not: `main` either returns without a call, or passes the
checks of main.c 183-194. -/
theorem main_validation_numeric (env : Env) (mic : MicPlatform) (prog : String)
    (opts : List Opt) (st0 : State) (hnum : opts.any (Opt.is_nan env) = false) :
    (rejected env opts = true →
      ∃ st1, main env mic (prog :: render_opts opts) st0 = some (1, st1) ∧
        st1.calls = st0.calls) ∧
    (rejected env opts = false →
      ∃ a st1, main_args env (prog :: render_opts opts) st0 = .inr (a, st1) ∧
        st1.calls = st0.calls ∧ a.model_dir.isSome = true ∧
        main env mic (prog :: render_opts opts) st0 = main_run env mic a st1) ∧
    (∀ argv : List String,
      (∃ code st1, main env mic argv st0 = some (code, st1) ∧ st1.calls = st0.calls ∧
        (code = 1 ∨ (code = 0 ∧ ("-h" ∈ argv.tail ∨ "--help" ∈ argv.tail)))) ∨
      (∃ a st1, main_args env argv st0 = .inr (a, st1) ∧ st1.calls = st0.calls ∧
        invalid_combination a = false ∧ main env mic argv st0 = main_run env mic a st1)) := by
  have hgen : ∀ argv : List String,
      (∃ code st1, main env mic argv st0 = some (code, st1) ∧ st1.calls = st0.calls ∧
        (code = 1 ∨ (code = 0 ∧ ("-h" ∈ argv.tail ∨ "--help" ∈ argv.tail)))) ∨
      (∃ a st1, main_args env argv st0 = .inr (a, st1) ∧ st1.calls = st0.calls ∧
        invalid_combination a = false ∧ main env mic argv st0 = main_run env mic a st1) := by
    intro argv
    rcases parse_args_general env argv.tail.length argv.tail Args.init st0 (le_refl _) with
      ⟨code, st1, e1, e2, e3⟩ | ⟨a1, st1, e1, e2⟩
    · exact Or.inl ⟨code, st1, by simp [main, main_args, e1], e2, e3⟩
    · cases hi : invalid_combination a1
      · exact Or.inr ⟨a1, st1, by simp [main_args, e1, hi], e2, hi,
          by simp [main, main_args, e1, hi]⟩
      · exact Or.inl ⟨1, st1, by simp [main, main_args, e1, hi], e2, Or.inl rfl⟩
  rw [← and_assoc]
  refine ⟨?_, hgen⟩
  obtain ⟨hbad, hgood⟩ := parse_render_opts env opts Args.init st0 hnum
  cases hv : opts.any (Opt.out_of_range env) with
  | true =>
    obtain ⟨st1, h1, h2⟩ := hbad hv
    constructor
    · intro _
      exact ⟨st1, by simp [main, main_args, h1], h2⟩
    · intro hr
      simp [rejected, hv] at hr
  | false =>
    obtain ⟨a1, st1, h1, h2, e3, e4, e5, e6, e7⟩ := hgood hv
    have hinv := invalid_combination_eq a1 (opts.any Opt.is_d) (opts.any Opt.is_i)
      (opts.any (fun o => o == Opt.stdin)) (opts.any (fun o => o == Opt.mic))
      (opts.any Opt.is_mic_secs) (by simpa [Args.init] using e3) (by simpa [Args.init] using e4)
      (by simpa [Args.init] using e5) (by simpa [Args.init] using e6)
      (by rw [e7]; simp [Args.init])
    have hrej : rejected env opts = invalid_combination a1 := by
      rw [hinv]; simp [rejected, sources_given, hv]
    constructor
    · intro hr
      rw [hrej] at hr
      exact ⟨st1, by simp [main, main_args, h1, hr], h2⟩
    · intro hr
      rw [hrej] at hr
      refine ⟨a1, st1, by simp [main_args, h1, hr], h2, ?_, by simp [main, main_args, h1, hr]⟩
      rw [hinv] at hr
      rw [e3]
      cases hd : opts.any Opt.is_d
      · simp [hd] at hr
      · simp [Args.init]

theorem main_validation_numeric_example :
    rejected (example_env [] 0 none) [Opt.d "model", Opt.stdin, Opt.mic] = true ∧
    (∃ st1, main (example_env [] 0 none) (example_mic []) ["voxtral", "-d", "model", "--stdin", "--mic"]
        (State.init [] []) = some (1, st1) ∧ st1.calls = []) ∧
    rejected (example_env [] 0 none) [Opt.d "model", Opt.stdin] = false ∧
    (∃ a st1, main_args (example_env [] 0 none) ["voxtral", "-d", "model", "--stdin"]
        (State.init [] []) = .inr (a, st1) ∧ a.model_dir.isSome = true) := by
  have h1 : rejected (example_env [] 0 none) [Opt.d "model", Opt.stdin, Opt.mic] = true := by
    decide
  have h2 : rejected (example_env [] 0 none) [Opt.d "model", Opt.stdin] = false := by
    decide
  obtain ⟨st1, e1, e2⟩ := (main_validation_numeric (example_env [] 0 none) (example_mic [])
    "voxtral" [Opt.d "model", Opt.stdin, Opt.mic] (State.init [] []) (by decide)).1 h1
  obtain ⟨a, st2, f1, _, f3, _⟩ := (main_validation_numeric (example_env [] 0 none)
    (example_mic []) "voxtral" [Opt.d "model", Opt.stdin] (State.init [] []) (by decide)).2.1 h2
  exact ⟨h1, ⟨st1, e1, e2⟩, h2, ⟨a, st2, f1, f3⟩⟩

/-- C8 (failing input): option values that `atof` reads as NaN pass every range check, since
each check is a comparison and every comparison with NaN is false.  With `--mic-secs nan`
and no `--mic`, with `--alt nan` and with `-I nan` the claim has `main` return 1 before any
engine call (the duration limit comes without the microphone, the values are neither
positive nor inside `[0, 1]`); the program loads the model, initialises the stream,
decodes the file (here one sample), feeds it and returns 0.  After `--alt nan` the static
`alt_cutoff` is NaN: `main` does not enable alternatives in the engine (`alt_cutoff >= 0`
is false) while `drain_tokens` takes the alternatives path (`alt_cutoff < 0` is false). -/
theorem main_accepts_nan :
    rejected (example_env [] F32.nan (some [0]))
      [Opt.d "m", Opt.i "f.wav", Opt.mic_secs "nan"] = true ∧
    main (example_env [] F32.nan (some [0])) (example_mic [])
        ["voxtral", "-d", "m", "-i", "f.wav", "--mic-secs", "nan"] (State.init [] []) =
      some (0, { State.init [] [] with
        out := ['\n'],
        calls := [Call.vox_load "m", Call.vox_stream_init, Call.vox_load_wav "f.wav",
          Call.vox_stream_feed [0], Call.vox_stream_finish, Call.vox_stream_free, Call.vox_free] }) ∧
    rejected (example_env [] F32.nan (some [0])) [Opt.d "m", Opt.i "f.wav", Opt.alt "nan"]
      = true ∧
    main (example_env [] F32.nan (some [0])) (example_mic [])
        ["voxtral", "-d", "m", "-i", "f.wav", "--alt", "nan"] (State.init [] []) =
      some (0, { State.init [] [] with
        alt_cutoff := F32.nan,
        out := ['\n'],
        calls := [Call.vox_load "m", Call.vox_stream_init, Call.vox_load_wav "f.wav",
          Call.vox_stream_feed [0], Call.vox_stream_finish, Call.vox_stream_free, Call.vox_free] }) ∧
    (∀ st : State, st.alt_cutoff = F32.nan → drain_tokens st = drain_alt st.gets_alt st) ∧
    rejected (example_env [] F32.nan (some [0])) [Opt.d "m", Opt.i "f.wav", Opt.I "nan"]
      = true ∧
    main (example_env [] F32.nan (some [0])) (example_mic [])
        ["voxtral", "-d", "m", "-i", "f.wav", "-I", "nan"] (State.init [] []) =
      some (0, { State.init [] [] with
        out := ['\n'],
        calls := [Call.vox_load "m", Call.vox_stream_init, Call.vox_load_wav "f.wav",
          Call.vox_stream_feed [0], Call.vox_stream_finish, Call.vox_stream_free, Call.vox_free] }) := by
  refine ⟨by decide, ?_, by decide, ?_, ?_, by decide, ?_⟩
  · norm_num [main, main_args, parse_args, parse_arg, example_env, Args.init, invalid_combination,
      main_run, State.call, State.init, apply_interval, file_source, feed_and_drain, feed_loop,
      drain_tokens, drain_plain, fputs, vox_stream_feed, DEFAULT_FEED_CHUNK]
  · norm_num [main, main_args, parse_args, parse_arg, example_env, Args.init, invalid_combination,
      main_run, State.call, State.init, apply_interval, file_source, feed_and_drain, feed_loop,
      drain_tokens, drain_alt, fputs, vox_stream_feed, DEFAULT_FEED_CHUNK]
  · intro st h
    unfold drain_tokens
    rw [h, if_neg (F32.not_nan_lt 0)]
  · norm_num [main, main_args, parse_args, parse_arg, example_env, Args.init, invalid_combination,
      main_run, State.call, State.init, apply_interval, file_source, feed_and_drain, feed_loop,
      drain_tokens, drain_plain, fputs, vox_stream_feed, DEFAULT_FEED_CHUNK]

theorem stdin_classification_witness :
    (example_env [1, 2, 3] 0 none).stdin.length < 4 ∧
    ({ Args.init with model_dir := some "model", use_stdin := 1 } : Args).use_mic = 0 ∧
    ({ Args.init with model_dir := some "model", use_stdin := 1 } : Args).use_stdin ≠ 0 ∧
    ∃ st1, main_run (example_env [1, 2, 3] 0 none) (example_mic [])
        { Args.init with model_dir := some "model", use_stdin := 1 } (State.init [] [])
          = some (1, st1) ∧
      fed_chunks st1.calls = [] := by
  have h1 : (example_env [1, 2, 3] 0 none).stdin.length < 4 := by decide
  have h2 : ({ Args.init with model_dir := some "model", use_stdin := 1 } : Args).use_mic = 0 := rfl
  have h3 : ({ Args.init with model_dir := some "model", use_stdin := 1 } : Args).use_stdin ≠ 0 := by
    decide
  exact ⟨h1, h2, h3, ((stdin_classification (example_env [1, 2, 3] 0 none) (example_mic [])
    { Args.init with model_dir := some "model", use_stdin := 1 } (State.init [] [])).1 h1).2 h2 h3⟩

/-! ## Chunk lengths on every source path -/

theorem feeds_within_refl (B : Int) (st : State) : feeds_within B st st :=
  ⟨rfl, [], by simp, by simp⟩

theorem feeds_within_trans {B : Int} {s1 s2 s3 : State} (h12 : feeds_within B s1 s2)
    (h23 : feeds_within B s2 s3) : feeds_within B s1 s3 := by
  obtain ⟨a1, n1, a2, a3⟩ := h12
  obtain ⟨b1, n2, b2, b3⟩ := h23
  refine ⟨b1.trans a1, n1 ++ n2, by rw [b2, a2, List.append_assoc], ?_⟩
  intro c hc
  rcases List.mem_append.mp hc with h | h
  · exact a3 c h
  · exact b3 c h

theorem feeds_within_of_eq (B : Int) (st st1 : State) (h1 : st1.feed_chunk = st.feed_chunk)
    (h2 : fed_chunks st1.calls = fed_chunks st.calls) : feeds_within B st st1 :=
  ⟨h1, [], by simp [h2], by simp⟩

theorem feed_and_drain_within (st : State) (samples : List Sample) (hB : 1 ≤ st.feed_chunk) :
    ∃ st1, feed_and_drain (samples.length + 1) st samples samples.length = some st1 ∧
      feeds_within st.feed_chunk st st1 := by
  obtain ⟨st1, chunks, h1, h2, _, h4, h5⟩ :=
    feed_and_drain_slices st samples (samples.length + 1) hB (Nat.lt_succ_self _)
  refine ⟨st1, h1, h4, chunks, ?_, h5⟩
  rw [h2, fed_chunks_append, fed_chunks_map_feed]

theorem mic_chunk_cb_within (samples : List Sample) (st : State) (hB : 1 ≤ st.feed_chunk) :
    ∃ rc st1, mic_chunk_cb true samples (samples.length : Int) st = some (rc, st1) ∧
      feeds_within st.feed_chunk st st1 := by
  unfold mic_chunk_cb
  simp only [not_true_eq_false, if_false]
  by_cases hs : st.g_stop_mic = true
  · rw [if_pos hs]
    exact ⟨1, st, rfl, feeds_within_refl _ _⟩
  · rw [if_neg hs, Int.toNat_ofNat]
    obtain ⟨st1, h1, h2⟩ := feed_and_drain_within st samples hB
    rw [h1]
    exact ⟨_, st1, rfl, h2⟩

theorem mic_resubmit_within (B : Int) (m : vox_mic_state_t) (st : State) (d : Delivery) :
    feeds_within B st (mic_resubmit m st d).2 := by
  unfold mic_resubmit
  have h4 : feeds_within B st { st with calls := st.calls ++ [Call.AudioQueueEnqueueBuffer] } :=
    feeds_within_of_eq _ _ _ rfl (by simp [fed_chunks_append, fed_chunks])
  split
  · dsimp only
    split
    · exact h4
    · exact h4
  · exact feeds_within_refl _ _

theorem vox_mic_input_cb_within (cb : vox_mic_chunk_cb) (m : vox_mic_state_t) (st : State)
    (d : Delivery)
    (hcb : ∀ samples : List Sample, ∃ rc st1,
      cb samples (samples.length : Int) st = some (rc, st1) ∧ feeds_within st.feed_chunk st st1) :
    ∃ m1 st1, vox_mic_input_cb (some cb) m st d = some (m1, st1) ∧
      feeds_within st.feed_chunk st st1 := by
  unfold vox_mic_input_cb
  by_cases h0 : m.should_stop = true ∨ m.failed = true
  · rw [if_pos h0]
    exact ⟨m, st, rfl, feeds_within_refl _ _⟩
  rw [if_neg h0]
  have hn : ((2 * d.data.length / 2 : Nat) : Int) = ((d.data.map to_float).length : Int) := by
    rw [List.length_map, Nat.mul_div_cancel_left _ (by norm_num : 0 < 2)]
  simp only [hn]
  have hfeed : ∃ m1 st1, mic_convert_and_feed (some cb) m st d
      ((d.data.map to_float).length : Int) = some (m1, st1) ∧
      feeds_within st.feed_chunk st st1 := by
    unfold mic_convert_and_feed
    by_cases hm : d.malloc_ok = true
    · rw [if_neg (by simpa using hm)]
      obtain ⟨rc, st1, e1, e2⟩ := hcb (d.data.map to_float)
      simp only [callback_requests_stop, e1]
      split_ifs <;> exact ⟨_, _, rfl, e2⟩
    · rw [if_pos hm]
      exact ⟨_, _, rfl, feeds_within_refl _ _⟩
  by_cases hpos : ((d.data.map to_float).length : Int) > 0
  · rw [if_pos hpos]
    obtain ⟨m1, st1, e1, e2⟩ := hfeed
    rw [e1]
    exact ⟨_, _, rfl, feeds_within_trans e2 (by
      have := mic_resubmit_within st.feed_chunk m1 st1 d
      exact this)⟩
  · rw [if_neg hpos]
    exact ⟨_, _, rfl, mic_resubmit_within _ _ _ _⟩

theorem mic_events_within :
    ∀ (evs : List MicEvent) (m : vox_mic_state_t) (st : State), 1 ≤ st.feed_chunk →
      ∃ m1 st1, mic_events (some (mic_chunk_cb true)) evs m st = some (m1, st1) ∧
        feeds_within st.feed_chunk st st1 := by
  intro evs
  induction evs with
  | nil => intro m st _; exact ⟨m, st, rfl, feeds_within_refl _ _⟩
  | cons ev rest ih =>
    intro m st hB
    cases ev with
    | sigint =>
      obtain ⟨m1, st1, e1, e2⟩ := ih m (handle_sigint st) hB
      exact ⟨m1, st1, by simpa [mic_events] using e1,
        feeds_within_trans (feeds_within_of_eq _ _ _ rfl rfl) e2⟩
    | delivery d =>
      obtain ⟨m1, st1, e1, e2⟩ := vox_mic_input_cb_within (mic_chunk_cb true) m st d
        (fun samples => mic_chunk_cb_within samples st hB)
      have hfc : st1.feed_chunk = st.feed_chunk := e2.1
      obtain ⟨m2, st2, f1, f2⟩ := ih m1 st1 (by rw [hfc]; exact hB)
      rw [hfc] at f2
      exact ⟨m2, st2, by simp only [mic_events, e1]; exact f1, feeds_within_trans e2 f2⟩

theorem mic_control_loop_within :
    ∀ (polls : List (List MicEvent)) (m : vox_mic_state_t) (st : State), 1 ≤ st.feed_chunk →
      ∀ r, mic_control_loop (some (mic_chunk_cb true)) polls m st = some r →
        feeds_within st.feed_chunk st r.2 := by
  intro polls
  induction polls with
  | nil =>
    intro m st _ r hr
    unfold mic_control_loop at hr
    split_ifs at hr <;> simp at hr <;> subst hr <;> exact feeds_within_refl _ _
  | cons evs rest ih =>
    intro m st hB r hr
    unfold mic_control_loop at hr
    split_ifs at hr with h1 h2
    · simp at hr; subst hr; exact feeds_within_refl _ _
    · obtain ⟨m1, st1, e1, e2⟩ := mic_events_within evs m st hB
      simp only [e1] at hr
      have hfc : st1.feed_chunk = st.feed_chunk := e2.1
      have := ih m1 st1 (by rw [hfc]; exact hB) r hr
      rw [hfc] at this
      exact feeds_within_trans e2 this
    · simp at hr; subst hr; exact feeds_within_refl _ _

theorem allocate_buffers_within (p : MicPlatform) (bytes B : Int) :
    ∀ (k i : Nat) (st : State), feeds_within B st (allocate_buffers p bytes k i st).2 := by
  intro k
  induction k with
  | zero => intro i st; exact feeds_within_refl _ _
  | succ k ih =>
    intro i st
    unfold allocate_buffers
    dsimp only
    have h1 : feeds_within B st
        { st with calls := st.calls ++ [Call.AudioQueueAllocateBuffer bytes] } :=
      feeds_within_of_eq _ _ _ rfl (by simp [fed_chunks_append, fed_chunks])
    have h2 : feeds_within B st
        { st with calls := st.calls ++ [Call.AudioQueueAllocateBuffer bytes]
            ++ [Call.AudioQueueEnqueueBuffer] } :=
      feeds_within_of_eq _ _ _ rfl (by simp [fed_chunks_append, fed_chunks])
    by_cases ha : p.allocate_ok i = true
    · simp only [ha, not_true_eq_false, if_false]
      by_cases he : p.enqueue_ok i = true
      · simp only [he, not_true_eq_false, if_false]
        exact feeds_within_trans h2 (ih _ _)
      · simp only [he, not_false_eq_true, if_true]
        exact h2
    · simp only [ha, not_false_eq_true, if_true]
      exact h1

theorem vox_capture_mic_macos_within (ub : F32 → Int) (p : MicPlatform) (secs : F32)
    (chunk_samples : Int) (st : State) (hB : 1 ≤ st.feed_chunk) :
    ∀ r, vox_capture_mic_macos ub p secs chunk_samples (some (mic_chunk_cb true)) st = some r →
      feeds_within st.feed_chunk st r.2.2 := by
  intro r hr
  unfold vox_capture_mic_macos at hr
  simp only [Option.isNone_some, Bool.false_eq_true, if_false] at hr
  by_cases h1 : p.new_input_ok = true
  · simp only [h1, not_true_eq_false, if_false] at hr
    have hb := allocate_buffers_within p
      ((if chunk_samples ≤ 0 then 1600 else chunk_samples) * 2) st.feed_chunk 3 0 st
    revert hr
    cases hab : allocate_buffers p ((if chunk_samples ≤ 0 then 1600 else chunk_samples) * 2) 3 0 st
      with
    | mk ok st1 =>
      rw [hab] at hb
      cases ok with
      | false =>
        intro hr
        simp only [Option.some.injEq] at hr
        subst hr; exact hb
      | true =>
        intro hr
        simp only at hr
        by_cases h2 : p.start_ok = true
        · simp only [h2, not_true_eq_false, if_false] at hr
          have hfc : st1.feed_chunk = st.feed_chunk := hb.1
          revert hr
          cases hl : mic_control_loop (some (mic_chunk_cb true)) p.polls
            { max_samples := derive_max_samples ub secs, total_samples := 0,
              should_stop := false, failed := false } st1 with
          | none => intro hr; simp at hr
          | some r1 =>
            intro hr
            have := mic_control_loop_within p.polls _ st1 (by rw [hfc]; exact hB) r1 hl
            rw [hfc] at this
            simp only [Option.some.injEq] at hr
            subst hr
            exact feeds_within_trans hb this
        · simp only [h2, Bool.false_eq_true, not_false_eq_true, if_true, Option.some.injEq] at hr
          subst hr; exact hb
  · simp only [h1, Bool.false_eq_true, not_false_eq_true, if_true, Option.some.injEq] at hr
    subst hr; exact feeds_within_refl _ _

theorem file_source_within (env : Env) (a : Args) (st : State) (hB : 1 ≤ st.feed_chunk) :
    ∃ r, file_source env a st = some r ∧ feeds_within st.feed_chunk st r.2 := by
  unfold file_source
  dsimp only
  have h0 : feeds_within st.feed_chunk st (st.call (Call.vox_load_wav (a.input_wav.getD ""))) :=
    feeds_within_of_eq _ _ _ rfl (by simp [State.call, fed_chunks_append, fed_chunks])
  cases env.vox_load_wav (a.input_wav.getD "") with
  | none => exact ⟨_, rfl, h0⟩
  | some samples =>
    obtain ⟨st1, e1, e2⟩ := feed_and_drain_within
      (st.call (Call.vox_load_wav (a.input_wav.getD ""))) samples hB
    simp only [e1]
    exact ⟨_, rfl, feeds_within_trans h0 e2⟩

theorem stdin_wav_within (env : Env) (st : State) (hB : 1 ≤ st.feed_chunk)
    (hr : env.stdin.take 4 = RIFF) :
    ∃ r, stdin_source env st = some r ∧ feeds_within st.feed_chunk st r.2 := by
  obtain ⟨hn, hs⟩ := stdin_wav_spec env st hr
  have h0 : feeds_within st.feed_chunk st (st.call (Call.vox_parse_wav_buffer env.stdin)) :=
    feeds_within_of_eq _ _ _ rfl (by simp [State.call, fed_chunks_append, fed_chunks])
  cases hp : env.vox_parse_wav_buffer env.stdin with
  | none => exact ⟨_, hn hp, h0⟩
  | some samples =>
    obtain ⟨st1, e1, e2⟩ := feed_and_drain_within
      (st.call (Call.vox_parse_wav_buffer env.stdin)) samples hB
    rw [hs samples hp, e1]
    exact ⟨_, rfl, feeds_within_trans h0 e2⟩

theorem mic_source_within (env : Env) (mic : MicPlatform) (a : Args) (st : State)
    (hB : 1 ≤ st.feed_chunk) :
    ∀ r, mic_source env mic a st = some r → feeds_within st.feed_chunk st r.2 := by
  intro r hr
  unfold mic_source at hr
  by_cases ha : env.apple = true
  · simp only [ha, not_true_eq_false, if_false] at hr
    have h0 : feeds_within st.feed_chunk st
        (({ st with g_stop_mic := false } : State).call
          (Call.vox_capture_mic_macos a.mic_seconds st.feed_chunk)) :=
      feeds_within_of_eq _ _ _ rfl (by simp [State.call, fed_chunks_append, fed_chunks])
    revert hr
    cases hc : vox_capture_mic_macos env.float_to_int_ub mic a.mic_seconds
      (({ st with g_stop_mic := false } : State).call
        (Call.vox_capture_mic_macos a.mic_seconds st.feed_chunk)).feed_chunk
      (some (mic_chunk_cb true))
      (({ st with g_stop_mic := false } : State).call
        (Call.vox_capture_mic_macos a.mic_seconds st.feed_chunk)) with
    | none => intro hr; simp at hr
    | some r1 =>
      intro hr
      have h1 : feeds_within st.feed_chunk
          (({ st with g_stop_mic := false } : State).call
            (Call.vox_capture_mic_macos a.mic_seconds st.feed_chunk)) r1.2.2 :=
        vox_capture_mic_macos_within env.float_to_int_ub mic a.mic_seconds
          (({ st with g_stop_mic := false } : State).call
            (Call.vox_capture_mic_macos a.mic_seconds st.feed_chunk)).feed_chunk
          (({ st with g_stop_mic := false } : State).call
            (Call.vox_capture_mic_macos a.mic_seconds st.feed_chunk)) hB r1 hc
      have h01 := feeds_within_trans h0 h1
      obtain ⟨rc, tot, st2⟩ := r1
      simp only at hr
      split_ifs at hr <;> simp only [Option.some.injEq] at hr <;> subst hr <;> exact h01
  · simp only [ha, Bool.false_eq_true, not_false_eq_true, if_true, Option.some.injEq] at hr
    subst hr
    exact feeds_within_refl _ _

/-- C3 (amended): with a chunk bound `feed_chunk` in `[160, 16000]`, every chunk fed on the
file path, on the WAV-on-stdin path and by the microphone callback has length at least 1 and
at most `feed_chunk`; on the raw stdin path the first feed is the 2-sample block of the
peeked bytes (within the bound) and every block the read loop forwards has length at least 1
and at most 4096, whatever `feed_chunk` is. -/
theorem source_chunk_lengths (env : Env) (mic : MicPlatform) (a : Args) (st : State)
    (hlo : 160 ≤ st.feed_chunk) (hhi : st.feed_chunk ≤ 16000) :
    (∃ r, file_source env a st = some r ∧ feeds_within st.feed_chunk st r.2) ∧
    (env.stdin.take 4 = RIFF →
      ∃ r, stdin_source env st = some r ∧ feeds_within st.feed_chunk st r.2) ∧
    (4 ≤ env.stdin.length → env.stdin.take 4 ≠ RIFF →
      ∃ (st1 : State) (first : List Sample) (more : List (List Sample)),
        stdin_source env st = some (true, st1) ∧ st1.feed_chunk = st.feed_chunk ∧
        fed_chunks st1.calls = fed_chunks st.calls ++ first :: more ∧
        first.length = 2 ∧ (first.length : Int) ≤ st.feed_chunk ∧
        (∀ c ∈ more, 1 ≤ c.length ∧ c.length ≤ 4096)) ∧
    (∀ (evs : List MicEvent) (m : vox_mic_state_t),
      ∃ m1 st1, mic_events (some (mic_chunk_cb true)) evs m st = some (m1, st1) ∧
        feeds_within st.feed_chunk st st1) ∧
    (∀ r, mic_source env mic a st = some r → feeds_within st.feed_chunk st r.2) := by
  have hB : 1 ≤ st.feed_chunk := by omega
  refine ⟨file_source_within env a st hB, stdin_wav_within env st hB, ?_,
    fun evs m => mic_events_within evs m st hB, mic_source_within env mic a st hB⟩
  intro h4 hr
  obtain ⟨st1, first, more, h1, h2, h3, hf, _, h6, _⟩ := stdin_raw_spec env st h4 hr
  refine ⟨st1, first, more, h1, h3, ?_, by rw [hf]; rfl, by rw [hf]; simp; omega, h6⟩
  rw [h2, fed_chunks_append, fed_chunks_map_feed]

theorem source_chunk_lengths_witness :
    (160 : Int) ≤ ({ State.init [] [] with feed_chunk := 160 } : State).feed_chunk ∧
    ({ State.init [] [] with feed_chunk := 160 } : State).feed_chunk ≤ 16000 ∧
    ∃ r, file_source (example_env [] 0 (some [0, 0, 0])) Args.init
        { State.init [] [] with feed_chunk := 160 } = some r ∧
      feeds_within 160 { State.init [] [] with feed_chunk := 160 } r.2 := by
  have h1 : (160 : Int) ≤ ({ State.init [] [] with feed_chunk := 160 } : State).feed_chunk := by
    decide
  have h2 : ({ State.init [] [] with feed_chunk := 160 } : State).feed_chunk ≤ 16000 := by
    decide
  exact ⟨h1, h2, (source_chunk_lengths (example_env [] 0 (some [0, 0, 0])) (example_mic [])
    Args.init { State.init [] [] with feed_chunk := 160 } h1 h2).1⟩

/-- C3 (as stated, refuted): with `feed_chunk = 160` and a raw stream of 326 bytes on stdin
(the 4 peeked bytes and 161 further samples), the read loop forwards one block of 161
samples, which is longer than the chunk bound. -/
theorem raw_block_exceeds_feed_chunk :
    ∃ (st1 : State) (c : List Sample),
      stdin_source (example_env (List.replicate 326 0) 0 none)
        { State.init [] [] with feed_chunk := 160 } = some (true, st1) ∧
      st1.feed_chunk = 160 ∧ c ∈ fed_chunks st1.calls ∧ c.length = 161 ∧
      ¬ ((c.length : Int) ≤ st1.feed_chunk) := by
  have hstdin : (example_env (List.replicate 326 0) 0 none).stdin = List.replicate 326 0 := rfl
  have hL : (example_env (List.replicate 326 0) 0 none).stdin.length = 326 := by
    rw [hstdin, List.length_replicate]
  have h4 : 4 ≤ (example_env (List.replicate 326 0) 0 none).stdin.length := by
    rw [hL]; norm_num
  have hr : (example_env (List.replicate 326 0) 0 none).stdin.take 4 ≠ RIFF := by
    rw [hstdin, List.take_replicate]
    decide
  obtain ⟨st1, first, more, h1, h2, h3, hf, h5, h6, h7⟩ :=
    stdin_raw_spec (example_env (List.replicate 326 0) 0 none)
      { State.init [] [] with feed_chunk := 160 } h4 hr
  have hlen : more.length = 1 := by
    rw [h7, hL]
  have hflat := congrArg List.length h5
  rw [List.length_map, s16_items_length, hL, hf] at hflat
  match more, hlen with
  | [c], _ =>
    have hc : c.length = 161 := by
      simp only [List.flatten_cons, List.flatten_nil, List.append_nil, List.length_append,
        List.length_cons, List.length_nil] at hflat
      omega
    refine ⟨st1, c, h1, h3, ?_, hc, ?_⟩
    · rw [h2, fed_chunks_append, fed_chunks_map_feed]
      simp
    · rw [h3, hc]; decide

/-! ## The capture ceiling -/

theorem mic_resubmit_fields (m : vox_mic_state_t) (st : State) (d : Delivery) :
    (mic_resubmit m st d).1.max_samples = m.max_samples ∧
    (mic_resubmit m st d).1.total_samples = m.total_samples ∧
    ((mic_resubmit m st d).1.should_stop = false → m.should_stop = false) := by
  unfold mic_resubmit
  split_ifs <;> simp

theorem vox_mic_input_cb_ceiling (cb : Option vox_mic_chunk_cb) (C : Nat) (m : vox_mic_state_t)
    (st : State) (d : Delivery) (hmax : 0 < m.max_samples) (hC : d.data.length ≤ C)
    (hinv : m.total_samples < m.max_samples + C ∧
      (m.should_stop = false → m.total_samples < m.max_samples)) :
    ∀ m1 st1, vox_mic_input_cb cb m st d = some (m1, st1) →
      m1.max_samples = m.max_samples ∧ m1.total_samples < m1.max_samples + C ∧
      (m1.should_stop = false → m1.total_samples < m1.max_samples) := by
  intro m1 st1 h
  unfold vox_mic_input_cb at h
  by_cases h0 : m.should_stop = true ∨ m.failed = true
  · rw [if_pos h0] at h
    simp only [Option.some.injEq, Prod.mk.injEq] at h
    obtain ⟨rfl, _⟩ := h
    exact ⟨rfl, hinv⟩
  rw [if_neg h0] at h
  have hrun : m.total_samples < m.max_samples := by
    apply hinv.2
    cases hs : m.should_stop
    · rfl
    · exact absurd (Or.inl hs) h0
  have hn : ((2 * d.data.length / 2 : Nat) : Int) = (d.data.length : Int) := by
    rw [Nat.mul_div_cancel_left _ (by norm_num : 0 < 2)]
  simp only [hn] at h
  have hfeed : ∀ m2 st2, mic_convert_and_feed cb m st d (d.data.length : Int) = some (m2, st2) →
      m2.max_samples = m.max_samples ∧ m2.total_samples < m2.max_samples + C ∧
      (m2.should_stop = false → m2.total_samples < m2.max_samples) := by
    intro m2 st2 h2
    unfold mic_convert_and_feed at h2
    by_cases hm : d.malloc_ok = true
    · rw [if_neg (by simpa using hm)] at h2
      dsimp only at h2
      revert h2
      cases callback_requests_stop cb (d.data.map to_float) (d.data.length : Int) st with
      | none => intro h2; simp at h2
      | some r =>
        obtain ⟨stop, st3⟩ := r
        intro h2
        simp only at h2
        cases stop <;> simp only [Bool.false_eq_true, if_false, if_true] at h2 <;>
          split_ifs at h2 with hc <;>
          simp only [Option.some.injEq, Prod.mk.injEq] at h2 <;>
          obtain ⟨rfl, _⟩ := h2 <;>
          simp only [true_and] <;>
          refine ⟨by omega, fun hs => ?_⟩
        · simp at hs
        · simp only [not_and, not_le] at hc
          have := hc hmax
          simpa using this
        · simp at hs
        · simp at hs
    · rw [if_pos hm] at h2
      simp only [Option.some.injEq, Prod.mk.injEq] at h2
      obtain ⟨rfl, _⟩ := h2
      exact ⟨rfl, by simpa using hinv.1, fun hs => by simp at hs⟩
  by_cases hpos : (d.data.length : Int) > 0
  · rw [if_pos hpos] at h
    revert h
    cases hf : mic_convert_and_feed cb m st d (d.data.length : Int) with
    | none => intro h; simp at h
    | some r =>
      obtain ⟨m2, st2⟩ := r
      intro h
      simp only [Option.some.injEq] at h
      obtain ⟨a1, a2, a3⟩ := hfeed m2 st2 hf
      obtain ⟨b1, b2, b3⟩ := mic_resubmit_fields m2 st2 d
      have hm1 : m1 = (mic_resubmit m2 st2 d).1 := by rw [h]
      rw [hm1, b1, b2]
      exact ⟨a1, a2, fun hs => a3 (b3 hs)⟩
  · rw [if_neg hpos] at h
    simp only [Option.some.injEq] at h
    obtain ⟨b1, b2, b3⟩ := mic_resubmit_fields m st d
    have hm1 : m1 = (mic_resubmit m st d).1 := by rw [h]
    rw [hm1, b1, b2]
    exact ⟨rfl, hinv.1, fun hs => hinv.2 (b3 hs)⟩

theorem mic_events_ceiling (cb : Option vox_mic_chunk_cb) (C : Nat) :
    ∀ (evs : List MicEvent) (m : vox_mic_state_t) (st : State), 0 < m.max_samples →
      (∀ d, MicEvent.delivery d ∈ evs → d.data.length ≤ C) →
      (m.total_samples < m.max_samples + C ∧
        (m.should_stop = false → m.total_samples < m.max_samples)) →
      ∀ m1 st1, mic_events cb evs m st = some (m1, st1) →
        m1.max_samples = m.max_samples ∧ m1.total_samples < m1.max_samples + C ∧
        (m1.should_stop = false → m1.total_samples < m1.max_samples) := by
  intro evs
  induction evs with
  | nil =>
    intro m st _ _ hinv m1 st1 h
    simp only [mic_events, Option.some.injEq, Prod.mk.injEq] at h
    obtain ⟨rfl, _⟩ := h
    exact ⟨rfl, hinv⟩
  | cons ev rest ih =>
    intro m st hmax hC hinv m1 st1 h
    cases ev with
    | sigint =>
      simp only [mic_events] at h
      exact ih m (handle_sigint st) hmax (fun d hd => hC d (List.mem_cons_of_mem _ hd)) hinv
        m1 st1 h
    | delivery d =>
      simp only [mic_events] at h
      revert h
      cases hcb : vox_mic_input_cb cb m st d with
      | none => intro h; simp at h
      | some r =>
        obtain ⟨m2, st2⟩ := r
        intro h
        simp only at h
        obtain ⟨a1, a2, a3⟩ := vox_mic_input_cb_ceiling cb C m st d hmax
          (hC d (List.mem_cons_self _ _)) hinv m2 st2 hcb
        obtain ⟨b1, b2⟩ := ih m2 st2 (by rw [a1]; exact hmax)
          (fun d hd => hC d (List.mem_cons_of_mem _ hd)) ⟨a2, a3⟩ m1 st1 h
        exact ⟨b1.trans a1, b2⟩

theorem mic_capture_ceiling (cb : Option vox_mic_chunk_cb) (ub : F32 → Int) (T : F32)
    (C : Nat) (h1 : 1 ≤ derive_max_samples ub T) (evs : List MicEvent)
    (hC : ∀ d, MicEvent.delivery d ∈ evs → d.data.length ≤ C) (st : State) :
    ∀ m1 st1,
      mic_events cb evs
        ({ max_samples := derive_max_samples ub T, total_samples := 0,
           should_stop := false, failed := false } : vox_mic_state_t) st = some (m1, st1) →
      m1.total_samples < derive_max_samples ub T + C ∧
      (m1.max_samples ≤ m1.total_samples → m1.should_stop = true) := by
  intro m1 st1 h
  obtain ⟨a1, a2, a3⟩ := mic_events_ceiling cb C evs
    { max_samples := derive_max_samples ub T, total_samples := 0, should_stop := false,
      failed := false } st (by simpa using h1) hC
    ⟨by simp only; omega, fun _ => by simpa using h1⟩ m1 st1 h
  constructor
  · rw [a1] at a2
    exact a2
  · intro hge
    cases hs : m1.should_stop
    · have := a3 hs
      omega
    · rfl

/-- The single precision product `0.00003f * 16000`: about 0.48, below 1. -/
theorem f32_scale_mic_limit :
    (F32.num (8246337 / 274877906944)).scale 16000 = F32.num (16106127 / 33554432) := by
  have h := f32_round_up (8246337 / 274877906944 * 16000) (1 / 33554432) (-2) 16106126
    (by norm_num) (by norm_num) (by norm_num) (by norm_num) (by norm_num) (by norm_num)
    (by norm_num) (by norm_num)
  simp only [F32.scale]
  rw [h]
  norm_num

theorem derive_max_samples_mic_limit (ub : F32 → Int) :
    derive_max_samples ub (F32.num (8246337 / 274877906944)) = 0 := by
  unfold derive_max_samples
  rw [if_pos (by simp), VOX_MIC_SAMPLE_RATE, f32_scale_mic_limit]
  exact f2i_num ub _ 0 (by norm_num) (by rw [Int.floor_eq_iff]; norm_num) (by norm_num)

theorem feed_loop_g_stop_mic (samples : List Sample) (n : Int) :
    ∀ (fuel : Nat) (off : Int) (st st1 : State), feed_loop samples n fuel off st = some st1 →
      st1.g_stop_mic = st.g_stop_mic := by
  intro fuel
  induction fuel with
  | zero => intro off st st1 h; simp [feed_loop] at h
  | succ fuel ih =>
    intro off st st1 h
    unfold feed_loop at h
    split_ifs at h with h1
    · dsimp only at h
      rw [ih _ _ _ h, (drain_tokens_calls _).2.2.2]
      rfl
    · simp only [Option.some.injEq] at h
      rw [h]

theorem vox_mic_input_cb_unlimited (total : Int) (st : State) (d : Delivery)
    (hg : st.g_stop_mic = false) (hB : 1 ≤ st.feed_chunk) (hm : d.malloc_ok = true)
    (he : d.enqueue_ok = true) (hd : 0 < d.data.length) :
    ∃ st1, vox_mic_input_cb (some (mic_chunk_cb true))
        { max_samples := 0, total_samples := total, should_stop := false, failed := false } st d
        = some ({ max_samples := 0, total_samples := total + d.data.length,
                  should_stop := false, failed := false }, st1) ∧
      st1.g_stop_mic = false ∧ st1.feed_chunk = st.feed_chunk ∧
      st1.calls.count Call.AudioQueueEnqueueBuffer
        = st.calls.count Call.AudioQueueEnqueueBuffer + 1 := by
  obtain ⟨st2, chunks, e1, e2, _, e4, _⟩ := feed_and_drain_slices st (d.data.map to_float)
    ((d.data.map to_float).length + 1) hB (Nat.lt_succ_self _)
  have eg : st2.g_stop_mic = false := by
    rw [feed_loop_g_stop_mic _ _ _ _ _ _ e1, hg]
  have hcount : st2.calls.count Call.AudioQueueEnqueueBuffer
      = st.calls.count Call.AudioQueueEnqueueBuffer := by
    rw [e2, List.count_append]
    have : (chunks.map Call.vox_stream_feed).count Call.AudioQueueEnqueueBuffer = 0 := by
      rw [List.count_eq_zero]
      intro hmem
      obtain ⟨c, _, hc⟩ := List.mem_map.mp hmem
      exact Call.noConfusion hc
    omega
  have hn : ((2 * d.data.length / 2 : Nat) : Int) = ((d.data.map to_float).length : Int) := by
    rw [List.length_map, Nat.mul_div_cancel_left _ (by norm_num : 0 < 2)]
  have hcb : mic_chunk_cb true (d.data.map to_float) ((d.data.map to_float).length : Int) st
      = some (0, st2) := by
    unfold mic_chunk_cb
    simp only [not_true_eq_false, if_false, hg, Bool.false_eq_true, Int.toNat_ofNat, e1, eg]
  have hlen : ((d.data.map to_float).length : Int) = (d.data.length : Int) := by
    rw [List.length_map]
  refine ⟨{ st2 with calls := st2.calls ++ [Call.AudioQueueEnqueueBuffer] }, ?_, eg, e4, ?_⟩
  · unfold vox_mic_input_cb
    rw [if_neg (by simp)]
    simp only [hn]
    rw [if_pos (by rw [hlen]; exact_mod_cast hd)]
    unfold mic_convert_and_feed
    rw [if_neg (by simp [hm])]
    simp only [callback_requests_stop, hcb, ne_eq, not_true_eq_false, decide_False,
      Bool.false_eq_true, if_false]
    rw [if_neg (by simp)]
    simp only [mic_resubmit, Bool.false_eq_true, not_false_eq_true, and_self, if_true, he,
      not_true_eq_false, if_false, hlen]
  · simp only [List.count_append, hcount]
    simp

/-- The ceiling of a limit of 2097.158935546875 s: the exact product 33554542.96875 is not a
float (floats are 4 apart there) and rounds to 33554544. -/
theorem derive_max_samples_rounds (ub : F32 → Int) :
    derive_max_samples ub (F32.num (8589963 / 4096)) = 33554544 := by
  have h := f32_round_up (8589963 / 4096 * 16000) 4 25 8388635
    (by norm_num) (by norm_num) (by norm_num) (by norm_num) (by norm_num) (by norm_num)
    (by norm_num) (by norm_num)
  unfold derive_max_samples
  rw [if_pos (by simp), VOX_MIC_SAMPLE_RATE]
  simp only [F32.scale]
  rw [h]
  exact f2i_num ub _ 33554544 (by norm_num) (by rw [Int.floor_eq_iff]; norm_num) (by norm_num)

/-- C10 (failing input): a duration limit of 0.00003 s, read as the float 0.00003f, is
positive, yet the derived ceiling `max_samples` is 0, which the callback reads as "no
ceiling".  With a chunk bound of 160 and buffers of 160 samples, after two full deliveries
the total is 320, above `T * 16000 + 160`, the session has not asked to stop, the stop flag
is clear and both buffers were resubmitted. -/
theorem mic_subsample_limit_never_stops :
    f32_round (3 / 100000) = F32.num (8246337 / 274877906944) ∧
    (0 : F32) < F32.num (8246337 / 274877906944) ∧
    (∀ ub : F32 → Int, derive_max_samples ub (F32.num (8246337 / 274877906944)) = 0) ∧
    (3 / 100000 : ℚ) * 16000 + 160 < 320 ∧
    (8246337 / 274877906944 : ℚ) * 16000 + 160 < 320 ∧
    ∀ ub : F32 → Int, ∃ (m1 : vox_mic_state_t) (st1 : State),
      mic_events (some (mic_chunk_cb true))
        [MicEvent.delivery { data := List.replicate 160 0, malloc_ok := true, enqueue_ok := true },
         MicEvent.delivery { data := List.replicate 160 0, malloc_ok := true, enqueue_ok := true }]
        { max_samples := derive_max_samples ub (F32.num (8246337 / 274877906944)),
          total_samples := 0, should_stop := false, failed := false }
        { State.init [] [] with feed_chunk := 160 } = some (m1, st1) ∧
      m1.total_samples = 320 ∧ m1.should_stop = false ∧ m1.failed = false ∧
      st1.g_stop_mic = false ∧
      st1.calls.count Call.AudioQueueEnqueueBuffer = 2 := by
  have hfl : f32_round (3 / 100000) = F32.num (8246337 / 274877906944) := by
    rw [f32_round_down (3 / 100000) (1 / 549755813888) (-16) 16492674 (by norm_num)
      (by norm_num) (by norm_num) (by norm_num) (by norm_num) (by norm_num) (by norm_num)
      (by norm_num)]
    norm_num
  refine ⟨hfl, by simp, derive_max_samples_mic_limit, by norm_num, by norm_num, ?_⟩
  intro ub
  rw [derive_max_samples_mic_limit ub]
  have hd : 0 < (List.replicate 160 (0 : Int)).length := by
    rw [List.length_replicate]; norm_num
  obtain ⟨s1, a1, a2, a3, a4⟩ := vox_mic_input_cb_unlimited 0
    { State.init [] [] with feed_chunk := 160 }
    { data := List.replicate 160 0, malloc_ok := true, enqueue_ok := true }
    rfl (by decide) rfl rfl hd
  obtain ⟨s2, b1, b2, _, b4⟩ := vox_mic_input_cb_unlimited
    (0 + ((List.replicate 160 (0 : Int)).length : Int))
    s1 { data := List.replicate 160 0, malloc_ok := true, enqueue_ok := true }
    a2 (by rw [a3]; decide) rfl rfl hd
  refine ⟨{ max_samples := 0,
            total_samples := 0 + ((List.replicate 160 (0 : Int)).length : Int)
              + ((List.replicate 160 (0 : Int)).length : Int),
            should_stop := false, failed := false }, s2, ?_, ?_, rfl, rfl, b2, ?_⟩
  · rw [mic_events, a1]
    simp only
    rw [mic_events, b1]
    rfl
  · simp only [List.length_replicate]
    norm_num
  · rw [b4, a4]
    rfl

/-! ## Cooperative stop -/

end Voxtral
